import Mathlib

/-!
# Verification of the claude-historian search core

Shallow embedding of the relevance-scoring / candidate-selection engine of the
claude-historian MCP server (src/formatter.ts, src/search-helpers.ts,
src/parser.ts, src/utils.ts), together with proofs and refutations of the
frozen specification claims.

Strings are modelled with Lean `String`/`List Char`; JavaScript `toLowerCase`
and friends are modelled on the ASCII range, which is the range exercised by
the code's term tables and by every concrete input appearing below.  Numeric
scores (JS `number`) are modelled as `ℚ`.
-/

namespace Historian

/-! ## String primitives (JS semantics) -/

/-- JS whitespace class `\s` (ASCII part). -/
def isWs (c : Char) : Bool :=
  c == ' ' || c == '\t' || c == '\n' || c == '\r' || c == '\x0b' || c == '\x0c'

/-- Split a character list on (maximal, non-empty) runs of separators, the
semantics of JS `String.split(/[sep]+/)`: separator runs collapse, a leading
run produces a leading empty token and a trailing run a trailing empty
token (callers always discard empty tokens). -/
def splitRuns (p : Char → Bool) : List Char → List (List Char)
  | [] => [[]]
  | c :: cs =>
    let r := splitRuns p cs
    if p c then
      match cs with
      | c2 :: _ => if p c2 then r else [] :: r
      | [] => [] :: r
    else
      match r with
      | t :: ts => (c :: t) :: ts
      | [] => [[c]]

/-- JS `s.split(/[sep]+/)` as a list of `String`s. -/
def jsSplit (p : Char → Bool) (s : String) : List String :=
  (splitRuns p s.toList).map (fun l => String.mk l)

/-- ASCII lower-casing, modelling JS `toLowerCase`. -/
def lowerStr (s : String) : String := String.mk (s.toList.map Char.toLower)

/-- JS `hay.includes(needle)` on character lists. -/
def inclList (hay needle : List Char) : Bool :=
  if needle.isPrefixOf hay then true
  else
    match hay with
    | [] => false
    | _ :: t => inclList t needle

/-- JS `hay.includes(needle)`. -/
def strIncludes (hay needle : String) : Bool := inclList hay.toList needle.toList

/-- JS `s.trim()` (ASCII whitespace). -/
def jsTrim (s : String) : String :=
  String.mk (((s.toList.dropWhile isWs).reverse.dropWhile isWs).reverse)

/-- JS falsy-or on numbers: `a || b`. -/
def jsOr (a b : ℚ) : ℚ := if a = 0 then b else a

/-! ## Term Matcher (`matchesTechTerm`, formatter.ts) -/

/-- The delimiter class of `content.split(/[\s.,;:!?()\[\]\x7b\x7d'"<>]+/)`. -/
def techDelim (c : Char) : Bool :=
  isWs c || c == '.' || c == ',' || c == ';' || c == ':' || c == '!' || c == '?' ||
  c == '(' || c == ')' || c == '[' || c == ']' || c == '\x7b' || c == '\x7d' ||
  c == '\'' || c == '"' || c == '<' || c == '>'

/-- JS word character `[\w-]`: ASCII alphanumeric, underscore or hyphen. -/
def isWordChar (c : Char) : Bool := c.isAlphanum || c == '_' || c == '-'

/-- `word.replace(/[^\w-]/g, '')`. -/
def cleanWordOf (w : List Char) : List Char := w.filter isWordChar

/-- The casing-normality test of `matchesTechTerm`: entirely lowercase,
entirely uppercase, or exactly title-case (`charAt(0).toUpperCase() +
slice(1).toLowerCase()`). -/
def isNormalCase (w : List Char) : Bool :=
  w == w.map Char.toLower || w == w.map Char.toUpper ||
  (match w with
   | [] => true
   | c :: rest => w == c.toUpper :: rest.map Char.toLower)

/-- `matchesTechTerm(content, term)`: split `content` on the delimiter class,
strip non-word characters from each word, and accept the first word equal to
`term` case-insensitively whose casing is normal; a casing-abnormal hit is
skipped and scanning continues. -/
def matchesTechTerm (content term : String) : Bool :=
  let words := splitRuns techDelim content.toList
  let termLower := term.toList.map Char.toLower
  words.any (fun w =>
    let cw := cleanWordOf w
    !cw.isEmpty && cw.map Char.toLower == termLower && isNormalCase cw)

/-! ## Data model (types.ts, ClaudeMessage / CompactMessage) -/

/-- One element of a structured `message.content` array. -/
inductive ContentItem
  | text (s : String)
  | toolUse (name : String)
  | toolResult
  | other
deriving DecidableEq

/-- The `message` field of a raw record: absent, a plain string, or a
structured content array. -/
inductive MsgBody
  | absent
  | str (s : String)
  | items (l : List ContentItem)
deriving DecidableEq

/-- `extractContentFromMessage` (utils.ts): plain string content is returned
as-is; array content maps text / tool_use / tool_result items and joins with
spaces, trimming the result. -/
def extractContentFromMessage (b : MsgBody) : String :=
  match b with
  | .absent => ""
  | .str s => s
  | .items l =>
      jsTrim (String.intercalate " " (l.map (fun item =>
        match item with
        | .text s => s
        | .toolUse name => "[Tool: " ++ name ++ "]"
        | .toolResult => "[Tool Result]"
        | .other => "")))

/-- The derived context bundle (`CompactMessage['context']`). -/
structure MsgContext where
  filesReferenced : List String := []
  toolsUsed : List String := []
  errorPatterns : List String := []
  bashCommands : List String := []
  claudeInsights : List String := []
  codeSnippets : List String := []
  actionItems : List String := []
deriving DecidableEq

/-- A raw decoded record (`ClaudeMessage`).  Timestamps are modelled as epoch
milliseconds.  The parser's `extractContext` derives the context bundle from
the raw record through a table of regex extractors (spec §4.8) that no claim
below exercises; the bundle is therefore carried on the decoded record. -/
structure ClaudeMsg where
  uuid : String
  timestamp : Int
  msgType : String
  body : MsgBody
  cwd : Option String
  sessionId : String
  derivedContext : Option MsgContext
deriving DecidableEq

/-- A scored record (`CompactMessage`).  `relevanceScore` and `finalScore`
are plain rationals with `0` standing for the JS `undefined` default: every
read in the source goes through `|| 0`, under which `undefined` and `0` are
indistinguishable (except where `||` falls through, modelled by `jsOr`). -/
structure CompactMessage where
  uuid : String
  timestamp : Int
  msgType : String
  content : String
  sessionId : String
  projectPath : String
  relevanceScore : ℚ
  finalScore : ℚ := 0
  context : Option MsgContext
deriving DecidableEq

/-! ## Relevance Scorer (`calculateRelevanceScore`, formatter.ts) -/

/-- The closed `coreTechPatterns` alternation
`/^(webpack|docker|...)$/i`; query words are lower-cased before the test, so
the case-insensitive anchored regex is membership in this list. -/
def coreTechList : List String :=
  ["webpack", "docker", "react", "vue", "angular", "node", "npm", "yarn",
   "typescript", "python", "rust", "go", "java", "kubernetes", "aws", "gcp",
   "azure", "postgres", "mysql", "redis", "mongodb", "graphql", "rest",
   "grpc", "oauth", "jwt", "git", "github", "gitlab", "jenkins", "nginx",
   "apache", "eslint", "prettier", "babel", "vite", "rollup", "esbuild",
   "jest", "mocha", "cypress", "playwright", "nextjs", "nuxt", "svelte",
   "tailwind", "sass", "less", "vitest", "pnpm", "turborepo", "prisma",
   "drizzle", "sequelize", "sqlite", "leveldb", "indexeddb"]

/-- The `genericTerms` exclusion set of `calculateRelevanceScore`. -/
def genericTermsList : List String :=
  ["config", "configuration", "setup", "install", "build", "deploy", "test",
   "run", "start", "create", "update", "fix", "add", "remove", "change",
   "optimize", "optimization", "improve", "use", "using", "with", "for",
   "the", "and", "make", "write", "read", "delete", "check",
   "testing", "tests", "mocks", "mocking", "mock", "stubs", "stubbing",
   "specs", "coverage",
   "design", "designs", "designing", "responsive", "architecture", "pattern",
   "patterns",
   "caching", "cache", "rendering", "render", "bundle", "bundling",
   "performance",
   "strategy", "strategies", "approach", "implementation", "solution",
   "solutions", "feature", "features", "system", "systems", "process",
   "processing", "handler", "handling", "manager", "management",
   "files", "file", "folder", "directory", "path", "code", "data", "error",
   "errors", "function", "functions", "class", "classes", "method",
   "methods", "variable", "variables", "component", "components", "module",
   "modules", "package", "packages", "library", "libraries",
   "format", "formatting", "style", "styles", "layout", "display", "show",
   "hide", "visible", "rules", "rule", "options", "option", "settings",
   "setting", "params", "parameters",
   "server", "client", "request", "response", "async", "await", "promise",
   "callback", "import", "export", "require", "include", "define",
   "declare", "return", "output", "input",
   "database", "schema", "schemas", "models", "model", "table", "tables",
   "query", "queries", "migration", "migrations", "index", "indexes",
   "field", "fields", "column", "columns",
   "deployment", "container", "containers", "service", "services",
   "cluster", "clusters", "instance", "instances", "environment",
   "environments", "manifest", "resource", "resources",
   "interface", "interfaces", "types", "typing", "object", "objects",
   "array", "arrays", "string", "strings", "number", "numbers", "boolean",
   "value", "values", "property", "properties"]

/-- `lowerQuery.split(/\s+/).filter((w) => w.length > 2)`. -/
def queryWordsOf (query : String) : List String :=
  (jsSplit isWs (lowerStr query)).filter (fun w => w.length > 2)

/-- The strict-core terms of a query: query words matching `coreTechPatterns`. -/
def strictCoreTermsOf (query : String) : List String :=
  (queryWordsOf query).filter (fun w => coreTechList.contains w)

/-- The supporting terms of a query: 5+ character words that are neither
strict-core nor in the generic-terms exclusion set. -/
def supportingTermsOf (query : String) : List String :=
  (queryWordsOf query).filter (fun w =>
    !coreTechList.contains w && !genericTermsList.contains w && w.length ≥ 5)

/-- `Math.ceil(n * 0.6)` for a word count `n`. -/
def ceil60 (n : Nat) : Nat := (3 * n + 4) / 5

/-- `calculateRelevanceScore(message, query, projectPath?)` (formatter.ts):
strict-core hits weigh 10 with a hard veto when none match, supporting hits
weigh 3, residual word hits weigh 2, plus exact-phrase (5), 60%-coverage (4),
tool-record (5), file-reference (3) and project-path (5) bonuses. -/
def calculateRelevanceScore (msg : ClaudeMsg) (query : String)
    (projectPath : Option String) : ℚ :=
  let content := extractContentFromMessage msg.body
  let lowerQuery := lowerStr query
  let lowerContent := lowerStr content
  let queryWords := queryWordsOf query
  let strictCoreTerms := strictCoreTermsOf query
  let supportingTerms := supportingTermsOf query
  let strictCoreMatches := strictCoreTerms.countP (fun t => matchesTechTerm content t)
  let score : ℚ := 10 * strictCoreMatches
  if 0 < strictCoreTerms.length ∧ strictCoreMatches = 0 then 0
  else
    let score := score + 3 * (supportingTerms.countP (fun t => matchesTechTerm content t))
    let residualMatches := queryWords.countP (fun w =>
      !strictCoreTerms.contains w && !supportingTerms.contains w && matchesTechTerm content w)
    let wordMatchCount := strictCoreMatches + residualMatches
    let score := score + 2 * residualMatches
    let score := score + (if strIncludes lowerContent lowerQuery then 5 else 0)
    let score := score +
      (if 0 < queryWords.length ∧ ceil60 queryWords.length ≤ wordMatchCount then 4 else 0)
    let score := score + (if msg.msgType = "tool_use" ∨ msg.msgType = "tool_result" then 5 else 0)
    let score := score +
      (if strIncludes content "src/" ∨ strIncludes content ".ts" ∨ strIncludes content ".js"
       then 3 else 0)
    let score := score +
      (match projectPath, msg.cwd with
       | some pp, some cwd => if pp ≠ "" ∧ cwd ≠ "" ∧ strIncludes cwd pp = true then 5 else 0
       | _, _ => 0)
    score

/-! ## Query Intent Classifier (`analyzeQueryIntent`, formatter.ts) -/

/-- The result of `analyzeQueryIntent`. -/
structure QueryAnalysis where
  qtype : String
  urgency : String
  scope : String
  expectsCode : Bool
  expectsSolution : Bool
  keywords : List String
  semanticBoosts : List (String × ℚ)
deriving DecidableEq

/-- `classifyQueryType(query)`: first-match priority error > implementation >
analysis > general. -/
def classifyQueryType (query : String) : String :=
  let lq := lowerStr query
  if strIncludes lq "error" || strIncludes lq "bug" || strIncludes lq "fix" ||
     strIncludes lq "issue" then "error"
  else if strIncludes lq "implement" || strIncludes lq "create" || strIncludes lq "build" ||
     strIncludes lq "add" then "implementation"
  else if strIncludes lq "how" || strIncludes lq "why" || strIncludes lq "analyze" ||
     strIncludes lq "understand" then "analysis"
  else "general"

/-- `getSemanticBoosts(query)`: the boost map in insertion order. -/
def getSemanticBoosts (lq : String) : List (String × ℚ) :=
  (if strIncludes lq "error" then [("errorResolution", 3)] else []) ++
  (if strIncludes lq "implement" then [("implementation", 5/2)] else []) ++
  (if strIncludes lq "optimize" then [("optimization", 2)] else []) ++
  (if strIncludes lq "fix" then [("solutions", 14/5)] else []) ++
  (if strIncludes lq "file" then [("fileOperations", 2)] else []) ++
  (if strIncludes lq "tool" then [("toolUsage", 11/5)] else [])

/-- `analyzeQueryIntent(query)` (formatter.ts). -/
def analyzeQueryIntent (query : String) : QueryAnalysis :=
  let lq := lowerStr query
  { qtype := classifyQueryType query
    urgency := if strIncludes lq "error" || strIncludes lq "failed" then "high" else "medium"
    scope := if strIncludes lq "project" || strIncludes lq "all" then "broad" else "focused"
    expectsCode := strIncludes lq "function" || strIncludes lq "implement" || strIncludes lq "code"
    expectsSolution := strIncludes lq "how" || strIncludes lq "fix" || strIncludes lq "solve"
    keywords := (jsSplit isWs lq).filter (fun w => w.length > 2)
    semanticBoosts := getSemanticBoosts lq }

/-! ## Re-ranker (`selectTopRelevantResults`, formatter.ts) -/

/-- `context?.field?.length || 0`. -/
def ctxLen (ctx : Option MsgContext) (f : MsgContext → List String) : Nat :=
  match ctx with
  | some c => (f c).length
  | none => 0

/-- `messageMatchesSemanticType(message, type)` (formatter.ts). -/
def messageMatchesSemanticType (m : CompactMessage) (t : String) : Bool :=
  let content := lowerStr m.content
  if t = "errorResolution" then
    strIncludes content "error" || strIncludes content "exception" ||
      0 < ctxLen m.context (·.errorPatterns)
  else if t = "implementation" then
    strIncludes content "function" || strIncludes content "implement" ||
      0 < ctxLen m.context (·.codeSnippets)
  else if t = "optimization" then
    strIncludes content "optimize" || strIncludes content "performance" ||
      strIncludes content "faster"
  else if t = "solutions" then
    strIncludes content "solution" || strIncludes content "fix" || strIncludes content "resolve"
  else if t = "fileOperations" then
    0 < ctxLen m.context (·.filesReferenced)
  else if t = "toolUsage" then
    0 < ctxLen m.context (·.toolsUsed)
  else false

/-- One candidate's pass through the enhanced-scoring map of
`selectTopRelevantResults`: the multi-word zero-score veto, then coverage,
semantic and recency boosts, producing `finalScore`.  `now` is the clock
reading (epoch ms) used for the recency boost. -/
def rerankOne (query : String) (analysis : QueryAnalysis) (now : Int)
    (m : CompactMessage) : CompactMessage :=
  let score := m.relevanceScore
  let queryWords := (jsSplit isWs query).filter (fun w => w.length > 2)
  if 2 ≤ queryWords.length ∧ score = 0 then { m with finalScore := 0 }
  else
    let contentLower := lowerStr m.content
    let queryTerms := (jsSplit isWs (lowerStr query)).filter (fun w => w.length > 2)
    let matchCount := queryTerms.countP (fun t => strIncludes contentLower t)
    let coverageRatio : ℚ :=
      if 0 < queryTerms.length then (matchCount : ℚ) / (queryTerms.length : ℚ) else 1
    let score :=
      if 1/2 ≤ coverageRatio then
        queryTerms.foldl (fun s t => if strIncludes contentLower t then s * 2 else s) score
      else if 0 < matchCount then
        score * (1 + (matchCount : ℚ) * (1/2)) * coverageRatio
      else score * (1/10)
    let score := analysis.semanticBoosts.foldl
      (fun s tb => if messageMatchesSemanticType m tb.1 then s * tb.2 else s) score
    let score :=
      if analysis.urgency = "high" ∧ ((now - m.timestamp : ℚ) / 3600000) < 24
      then score * (3/2) else score
    { m with finalScore := score }

/-- Run of digits replaced by a single `N` (`replace(/\d+/g, 'N')`). -/
def collapseDigits : List Char → List Char
  | [] => []
  | c :: cs =>
    if c.isDigit then
      match cs with
      | c2 :: _ => if c2.isDigit then collapseDigits cs else 'N' :: collapseDigits cs
      | [] => ['N']
    else c :: collapseDigits cs

/-- Run of whitespace replaced by a single space (`replace(/\s+/g, ' ')`). -/
def collapseWs : List Char → List Char
  | [] => []
  | c :: cs =>
    if isWs c then
      match cs with
      | c2 :: _ => if isWs c2 then collapseWs cs else ' ' :: collapseWs cs
      | [] => [' ']
    else c :: collapseWs cs

/-- Stable ascending insertion of a string into a sorted list (JS default
`Array.prototype.sort()`, lexicographic on code units). -/
def insertAscStr (a : String) : List String → List String
  | [] => [a]
  | b :: l => if a < b then a :: b :: l else b :: insertAscStr a l

/-- JS `[...].sort()` for strings. -/
def sortStrings (l : List String) : List String := l.foldr insertAscStr []

/-- `createIntelligentSignature(message)` (formatter.ts): role, sorted tool
list, has-files flag, and the normalized first 80 characters of content. -/
def createIntelligentSignature (m : CompactMessage) : String :=
  let contentHash := String.mk
    ((collapseWs ((collapseDigits (m.content.toList.map Char.toLower)).filter
      (fun c => !(c == '"' || c == '\'')))).take 80)
  let tools := String.intercalate "|"
    (sortStrings (match m.context with | some c => c.toolsUsed | none => []))
  let files :=
    if 0 < (match m.context with | some c => c.filesReferenced | none => []).length
    then "files" else "nofiles"
  m.msgType ++ ":" ++ tools ++ ":" ++ files ++ ":" ++ contentHash

/-- One step of the dedup `Map`: first-seen key is kept in place, a later
duplicate replaces the stored record only on strictly higher `finalScore`
(JS `Map.set` keeps the original insertion position). -/
def dedupInsert (seen : List (String × CompactMessage)) (sig : String)
    (m : CompactMessage) : List (String × CompactMessage) :=
  match seen with
  | [] => [(sig, m)]
  | (k, e) :: rest =>
    if k = sig then
      if e.finalScore < m.finalScore then (k, m) :: rest else (k, e) :: rest
    else (k, e) :: dedupInsert rest sig m

/-- The per-message accumulator step of `intelligentDeduplicate`. -/
def dedupStep (seen : List (String × CompactMessage)) (m : CompactMessage) :
    List (String × CompactMessage) :=
  dedupInsert seen (createIntelligentSignature m) m

/-- `intelligentDeduplicate(messages)` (formatter.ts): insertion-ordered map
from content signature to the kept record, then its value list. -/
def intelligentDeduplicate (messages : List CompactMessage) : List CompactMessage :=
  (messages.foldl dedupStep []).map Prod.snd

/-- Stable descending-by-key insertion (model of the stable JS
`sort((a, b) => key(b) - key(a))`). -/
def insertDescBy (key : α → ℚ) (a : α) : List α → List α
  | [] => [a]
  | b :: l => if key b ≤ key a then a :: b :: l else b :: insertDescBy key a l

/-- Stable descending sort by a rational key. -/
def sortDescBy (key : α → ℚ) (l : List α) : List α := l.foldr (insertDescBy key) []

/-- `selectTopRelevantResults(candidates, query, analysis, limit)`:
re-score, sort by final score, deduplicate, truncate. -/
def selectTopRelevantResults (candidates : List CompactMessage) (query : String)
    (analysis : QueryAnalysis) (limit : Nat) (now : Int) : List CompactMessage :=
  let scoredCandidates := candidates.map (rerankOne query analysis now)
  let sorted := sortDescBy (fun m => m.finalScore) scoredCandidates
  (intelligentDeduplicate sorted).take limit

/-! ## Similarity Engine (`SearchHelpers.calculateQuerySimilarity`,
search-helpers.ts) -/

/-- The similarity stop-word set. -/
def simStopWords : List String :=
  ["the", "and", "for", "that", "this", "with", "from", "have", "has", "how",
   "what", "when", "where", "why", "can", "could", "would", "should", "want",
   "need", "help", "please", "just", "like", "some", "any", "all"]

/-- `query.toLowerCase().split(/\s+/).filter((w) => w.length > 2)`. -/
def simWordsOf (q : String) : List String :=
  (jsSplit isWs (lowerStr q)).filter (fun w => w.length > 2)

/-- Significant words: length ≥ 4 and not a stop word. -/
def significantOf (ws : List String) : List String :=
  ws.filter (fun w => 4 ≤ w.length && !simStopWords.contains w)

/-- The `technicalSynonyms` table, in source order. -/
def technicalSynonyms : List (String × List String) :=
  [("error", ["exception", "fail", "crash", "bug", "issue", "problem"]),
   ("fix", ["resolve", "solve", "repair", "correct", "solution"]),
   ("install", ["setup", "configure", "add", "create"]),
   ("build", ["compile", "bundle", "deploy", "package"]),
   ("test", ["verify", "check", "validate", "debug"]),
   ("typescript", ["ts", "type", "interface"]),
   ("javascript", ["js", "node", "npm"])]

/-- `isWordSimilar(word1, word2)` (search-helpers.ts): close length, ≥ 4
characters, ≥ 60% positional character identity. -/
def isWordSimilar (w1 w2 : String) : Bool :=
  if 3 < (w1.length : Int) - w2.length ∨ 3 < (w2.length : Int) - w1.length then false
  else
    let minLen : Nat := min w1.length w2.length
    if minLen < 4 then false
    else
      let shared : ℚ := (minLen : ℚ) * (3/5)
      let posMatches := (w1.toList.zip w2.toList).countP (fun p => p.1 == p.2)
      shared ≤ (posMatches : ℚ)

/-- Whether the synonym-table scan fires for a pair of words. -/
def synonymHit (w1 w2 : String) : Bool :=
  technicalSynonyms.any (fun ks =>
    (ks.1 == w1 && ks.2.contains w2) || (ks.1 == w2 && ks.2.contains w1) ||
    (ks.2.contains w1 && ks.2.contains w2))

/-- The match score assigned to a scanned pair of words by the inner loop of
`calculateQuerySimilarity`: 1.0 exact, length-ratio-scaled 0.8 for
qualifying containment, 0.6 for character-similar words, 0.7 for a
technical-synonym hit (a containment hit that fails the length conditions
scores 0 without falling through to the later branches). -/
def pairScore (w1 w2 : String) : ℚ :=
  if w1 == w2 then 1
  else if strIncludes w1 w2 || strIncludes w2 w1 then
    let shorter : Nat := min w1.length w2.length
    let longer : Nat := max w1.length w2.length
    if 5 ≤ shorter ∧ (3/5 : ℚ) ≤ (shorter : ℚ) / (longer : ℚ) then
      (4/5) * ((shorter : ℚ) / (longer : ℚ))
    else 0
  else if isWordSimilar w1 w2 then 3/5
  else if synonymHit w1 w2 then 7/10
  else 0

/-- The increment a scanned pair contributes to the `significantMatches`
counter: it ticks on exact, qualifying-containment and synonym hits when
both words are significant, but never on `isWordSimilar` hits. -/
def pairSigInc (w1 w2 : String) (isSig1 isSig2 : Bool) : Nat :=
  if w1 == w2 then (if isSig1 && isSig2 then 1 else 0)
  else if strIncludes w1 w2 || strIncludes w2 w1 then
    let shorter : Nat := min w1.length w2.length
    let longer : Nat := max w1.length w2.length
    if 5 ≤ shorter ∧ (3/5 : ℚ) ≤ (shorter : ℚ) / (longer : ℚ) then
      (if isSig1 && isSig2 then 1 else 0)
    else 0
  else if isWordSimilar w1 w2 then 0
  else if synonymHit w1 w2 then (if isSig1 && isSig2 then 1 else 0)
  else 0

/-- The inner loop over the (enumerated) words of the second query: skip
already-matched indices, accumulate significant-match increments, and track
the best match (strict improvement only, so the first best index wins). -/
def innerScan (w1 : String) (isSig1 : Bool) (sig2 : List String)
    (matched : List Nat) : List (Nat × String) → ℚ × Option Nat × Nat →
    ℚ × Option Nat × Nat
  | [], st => st
  | (j, w2) :: rest, (bm, bi, sigAcc) =>
    if matched.contains j then
      innerScan w1 isSig1 sig2 matched rest (bm, bi, sigAcc)
    else
      let ms := pairScore w1 w2
      let inc := pairSigInc w1 w2 isSig1 (sig2.contains w2)
      if bm < ms then
        innerScan w1 isSig1 sig2 matched rest (ms, some j, sigAcc + inc)
      else
        innerScan w1 isSig1 sig2 matched rest (bm, bi, sigAcc + inc)

/-- The outer greedy loop over the words of the first query: state is
(totalScore, significantMatches, matched-index set). -/
def greedyOuter (sig1 sig2 : List String) (words2e : List (Nat × String)) :
    List String → ℚ × Nat × List Nat → ℚ × Nat × List Nat
  | [], st => st
  | w1 :: rest, (total, sigM, matched) =>
    let r := innerScan w1 (sig1.contains w1) sig2 matched words2e (0, none, 0)
    match r.2.1 with
    | some j => greedyOuter sig1 sig2 words2e rest (total + r.1, sigM + r.2.2, j :: matched)
    | none => greedyOuter sig1 sig2 words2e rest (total, sigM + r.2.2, matched)

/-- `word.replace(/(ing|ed|s|ly|tion|ment)$/, '')`; the six alternatives end
in pairwise distinct characters, so at most one can match at the end. -/
def stemWord (w : String) : String :=
  let cs := w.toList
  let dropSuffix := fun (n : Nat) => String.mk (cs.take (cs.length - n))
  if List.isSuffixOf "ing".toList cs then dropSuffix 3
  else if List.isSuffixOf "ed".toList cs then dropSuffix 2
  else if List.isSuffixOf "s".toList cs then dropSuffix 1
  else if List.isSuffixOf "ly".toList cs then dropSuffix 2
  else if List.isSuffixOf "tion".toList cs then dropSuffix 4
  else if List.isSuffixOf "ment".toList cs then dropSuffix 4
  else w

/-- The technical-trigger word list of the similarity boost. -/
def simTechList : List String :=
  ["error", "fix", "build", "install", "typescript", "javascript"]

/-- `SearchHelpers.calculateQuerySimilarity(query1, query2)`
(search-helpers.ts): greedy best-match assignment with a significant-match
gate, then (total/maxWords) · (minWords/maxWords) · technicalBoost plus a
stemming bonus, capped at 1. -/
def calculateQuerySimilarity (q1 q2 : String) : ℚ :=
  let words1 := simWordsOf q1
  let words2 := simWordsOf q2
  if words1.length = 0 ∨ words2.length = 0 then 0
  else
    let significant1 := significantOf words1
    let significant2 := significantOf words2
    let maxWords : Nat := max words1.length words2.length
    let minWords : Nat := min words1.length words2.length
    let g := greedyOuter significant1 significant2 (List.enumFrom 0 words2) words1 (0, 0, [])
    let totalScore := g.1
    let significantMatches := g.2.1
    if significantMatches < 2 ∧ 2 ≤ significant1.length ∧ 2 ≤ significant2.length then 0
    else
      let stemmed1 := words1.map stemWord
      let stemmed2 := words2.map stemWord
      let stemmedIntersection := stemmed1.filter (fun w => stemmed2.contains w)
      let maxStemmed : Nat := max stemmed1.length stemmed2.length
      let stemBonus : ℚ :=
        ((stemmedIntersection.length : ℚ) / (maxStemmed : ℚ)) * (3/10)
      let isTechnical := words1.any (fun w => simTechList.contains w) ||
        words2.any (fun w => simTechList.contains w)
      let technicalBoost : ℚ := if isTechnical then 6/5 else 1
      let lengthPenalty : ℚ := (minWords : ℚ) / (maxWords : ℚ)
      let baseScore := totalScore / (maxWords : ℚ) * lengthPenalty * technicalBoost
      min (baseScore + stemBonus) 1

/-! ## Deduplication lemmas (for C8) -/

theorem dedupInsert_all_new (seen : List (String × CompactMessage)) (sig : String)
    (m : CompactMessage) (h : ∀ p ∈ seen, p.1 ≠ sig) :
    dedupInsert seen sig m = seen ++ [(sig, m)] := by
  induction seen with
  | nil => rfl
  | cons q rest ih =>
    obtain ⟨k, e⟩ := q
    have hk : k ≠ sig := h (k, e) (List.mem_cons_self _ _)
    simp only [dedupInsert, if_neg hk, List.cons_append, List.cons.injEq, true_and]
    exact ih (fun p hp => h p (List.mem_cons_of_mem _ hp))

theorem fst_mem_dedupInsert (seen : List (String × CompactMessage)) (sig : String)
    (m : CompactMessage) :
    ∀ p ∈ dedupInsert seen sig m, p.1 = sig ∨ p.1 ∈ seen.map Prod.fst := by
  induction seen with
  | nil =>
    intro p hp
    simp only [dedupInsert, List.mem_singleton] at hp
    exact Or.inl (by rw [hp])
  | cons q rest ih =>
    obtain ⟨k, e⟩ := q
    intro p hp
    by_cases hk : k = sig
    · simp only [dedupInsert, if_pos hk] at hp
      have hp2 : p = (k, m) ∨ p = (k, e) ∨ p ∈ rest := by
        by_cases hsc : e.finalScore < m.finalScore
        · rw [if_pos hsc] at hp
          rcases List.mem_cons.mp hp with h1 | h1
          · exact Or.inl h1
          · exact Or.inr (Or.inr h1)
        · rw [if_neg hsc] at hp
          rcases List.mem_cons.mp hp with h1 | h1
          · exact Or.inr (Or.inl h1)
          · exact Or.inr (Or.inr h1)
      rcases hp2 with h1 | h1 | h1
      · exact Or.inl (by rw [h1, hk])
      · exact Or.inl (by rw [h1, hk])
      · refine Or.inr ?_
        simp only [List.map_cons, List.mem_cons]
        exact Or.inr (List.mem_map_of_mem Prod.fst h1)
    · simp only [dedupInsert, if_neg hk] at hp
      rcases List.mem_cons.mp hp with h1 | h1
      · exact Or.inr (by rw [h1]; simp)
      · rcases ih p h1 with h2 | h2
        · exact Or.inl h2
        · refine Or.inr ?_
          simp only [List.map_cons, List.mem_cons]
          exact Or.inr h2

theorem sig_eq_dedupInsert (seen : List (String × CompactMessage)) (sig : String)
    (m : CompactMessage) (hm : createIntelligentSignature m = sig)
    (hseen : ∀ p ∈ seen, createIntelligentSignature p.2 = p.1) :
    ∀ p ∈ dedupInsert seen sig m, createIntelligentSignature p.2 = p.1 := by
  induction seen with
  | nil =>
    intro p hp
    simp only [dedupInsert, List.mem_singleton] at hp
    rw [hp]; exact hm
  | cons q rest ih =>
    obtain ⟨k, e⟩ := q
    intro p hp
    by_cases hk : k = sig
    · simp only [dedupInsert, if_pos hk] at hp
      by_cases hsc : e.finalScore < m.finalScore
      · rw [if_pos hsc] at hp
        rcases List.mem_cons.mp hp with h1 | h1
        · rw [h1]; simp only []; rw [hm, hk]
        · exact hseen p (List.mem_cons_of_mem _ h1)
      · rw [if_neg hsc] at hp
        rcases List.mem_cons.mp hp with h1 | h1
        · rw [h1]; exact hseen (k, e) (List.mem_cons_self _ _)
        · exact hseen p (List.mem_cons_of_mem _ h1)
    · simp only [dedupInsert, if_neg hk] at hp
      rcases List.mem_cons.mp hp with h1 | h1
      · rw [h1]; exact hseen (k, e) (List.mem_cons_self _ _)
      · exact ih (fun p hp => hseen p (List.mem_cons_of_mem _ hp)) p h1

theorem pairwise_dedupInsert (seen : List (String × CompactMessage)) (sig : String)
    (m : CompactMessage) (h : seen.Pairwise (fun a b => a.1 ≠ b.1)) :
    (dedupInsert seen sig m).Pairwise (fun a b => a.1 ≠ b.1) := by
  induction seen with
  | nil => simp [dedupInsert]
  | cons q rest ih =>
    obtain ⟨k, e⟩ := q
    rcases List.pairwise_cons.mp h with ⟨hhead, htail⟩
    by_cases hk : k = sig
    · simp only [dedupInsert, if_pos hk]
      by_cases hsc : e.finalScore < m.finalScore
      · rw [if_pos hsc]
        exact List.pairwise_cons.mpr ⟨hhead, htail⟩
      · rw [if_neg hsc]
        exact List.pairwise_cons.mpr ⟨hhead, htail⟩
    · simp only [dedupInsert, if_neg hk]
      refine List.pairwise_cons.mpr ⟨?_, ih htail⟩
      intro b hb
      rcases fst_mem_dedupInsert rest sig m b hb with h1 | h1
      · rw [h1]; exact hk
      · rcases List.mem_map.mp h1 with ⟨q, hq, hq1⟩
        rw [← hq1]
        exact hhead q hq

/-- The well-formedness invariant of the dedup accumulator: keys are
pairwise distinct and each stored record's signature is its key. -/
def GoodSeen (seen : List (String × CompactMessage)) : Prop :=
  seen.Pairwise (fun a b => a.1 ≠ b.1) ∧
  ∀ p ∈ seen, createIntelligentSignature p.2 = p.1

theorem goodSeen_foldl (l : List CompactMessage) :
    ∀ seen, GoodSeen seen → GoodSeen (l.foldl dedupStep seen) := by
  induction l with
  | nil => intro seen h; exact h
  | cons m rest ih =>
    intro seen h
    simp only [List.foldl_cons]
    exact ih _ ⟨pairwise_dedupInsert seen _ m h.1,
      sig_eq_dedupInsert seen _ m rfl h.2⟩

theorem foldl_dedupStep_all_new (l : List CompactMessage) :
    ∀ (seen : List (String × CompactMessage)),
    (∀ p ∈ seen, ∀ m ∈ l, p.1 ≠ createIntelligentSignature m) →
    l.Pairwise (fun a b => createIntelligentSignature a ≠ createIntelligentSignature b) →
    l.foldl dedupStep seen = seen ++ l.map (fun m => (createIntelligentSignature m, m)) := by
  induction l with
  | nil => intro seen _ _; simp
  | cons m rest ih =>
    intro seen hnew hpw
    rcases List.pairwise_cons.mp hpw with ⟨hhead, htail⟩
    simp only [List.foldl_cons]
    have hstep : dedupStep seen m = seen ++ [(createIntelligentSignature m, m)] :=
      dedupInsert_all_new seen _ m
        (fun p hp => hnew p hp m (List.mem_cons_self _ _))
    rw [hstep, ih _ ?_ htail]
    · simp
    · intro p hp m2 hm2
      rcases List.mem_append.mp hp with h1 | h1
      · exact hnew p h1 m2 (List.mem_cons_of_mem _ hm2)
      · rcases List.mem_singleton.mp h1 with rfl
        exact hhead m2 hm2

theorem intelligentDeduplicate_fixed (l : List CompactMessage)
    (h : l.Pairwise (fun a b =>
      createIntelligentSignature a ≠ createIntelligentSignature b)) :
    intelligentDeduplicate l = l := by
  unfold intelligentDeduplicate
  rw [foldl_dedupStep_all_new l [] (by simp) h]
  simp only [List.nil_append, List.map_map,
    show (Prod.snd ∘ fun m => (createIntelligentSignature m, m)) = id from rfl, List.map_id]

theorem intelligentDeduplicate_sigs_distinct (l : List CompactMessage) :
    (intelligentDeduplicate l).Pairwise (fun a b =>
      createIntelligentSignature a ≠ createIntelligentSignature b) := by
  have hgood : GoodSeen (l.foldl dedupStep []) :=
    goodSeen_foldl l [] ⟨List.Pairwise.nil, by simp⟩
  unfold intelligentDeduplicate
  rw [List.pairwise_map]
  refine List.Pairwise.imp_of_mem ?_ hgood.1
  intro a b ha hb hab
  rw [hgood.2 a ha, hgood.2 b hb]
  exact hab

/-! ## Claim theorems C1, C2, C3, C4, C8 -/

/-- Claim C1: for every query with at least 2 significant words (words longer
than 2 characters) and every candidate whose base relevance score is exactly
0, the re-ranking step of `selectTopRelevantResults` forces the candidate's
final score to 0, for every intent classification (hence every coverage /
semantic / recency boost configuration) and every clock reading. -/
theorem rerank_zero_score_veto (query : String) (analysis : QueryAnalysis)
    (now : Int) (m : CompactMessage)
    (h1 : 2 ≤ ((jsSplit isWs query).filter (fun w => w.length > 2)).length)
    (h2 : m.relevanceScore = 0) :
    (rerankOne query analysis now m).finalScore = 0 := by
  unfold rerankOne
  rw [if_pos ⟨h1, h2⟩]

/-- Witness for C1: a concrete zero-base-score candidate, re-ranked under a
query whose intent analysis activates semantic boosts and high urgency, still
gets final score 0. -/
theorem rerank_zero_score_veto_witness :
    (2 ≤ ((jsSplit isWs "docker error fix").filter (fun w => w.length > 2)).length ∧
      (⟨"u1", 0, "assistant", "an error fix using tools and files", "s1", "p", 0, 0,
        none⟩ : CompactMessage).relevanceScore = 0) ∧
    (rerankOne "docker error fix" (analyzeQueryIntent "docker error fix") 0
      ⟨"u1", 0, "assistant", "an error fix using tools and files", "s1", "p", 0, 0,
        none⟩).finalScore = 0 :=
  ⟨⟨by decide, by decide⟩,
    rerank_zero_score_veto "docker error fix" (analyzeQueryIntent "docker error fix") 0
      ⟨"u1", 0, "assistant", "an error fix using tools and files", "s1", "p", 0, 0, none⟩
      (by decide) (by decide)⟩

/-- Claim C2: if a query contains at least one strict-core term and none of
the strict-core terms match the record's content through the Term Matcher,
`calculateRelevanceScore` returns exactly 0, whatever other overlap, phrase
or content-feature bonuses would otherwise apply. -/
theorem relevance_strict_core_veto (msg : ClaudeMsg) (query : String)
    (pp : Option String)
    (h1 : strictCoreTermsOf query ≠ [])
    (h2 : ∀ t ∈ strictCoreTermsOf query,
      matchesTechTerm (extractContentFromMessage msg.body) t = false) :
    calculateRelevanceScore msg query pp = 0 := by
  unfold calculateRelevanceScore
  have hc : (strictCoreTermsOf query).countP
      (fun t => matchesTechTerm (extractContentFromMessage msg.body) t) = 0 := by
    rw [List.countP_eq_zero]
    intro a ha
    simp [h2 a ha]
  simp only [hc]
  rw [if_pos ⟨List.length_pos.mpr h1, trivial⟩]

/-- Witness for C2: the spec's own scenario — content `"ReAct agent pattern
implementation"` against query `"react hooks optimization"`; the strict-core
term `react` exists, fails the casing gate, and the score is 0 despite the
overlapping word `pattern`-free content. -/
theorem relevance_strict_core_veto_witness :
    (strictCoreTermsOf "react hooks optimization" ≠ [] ∧
      ∀ t ∈ strictCoreTermsOf "react hooks optimization",
        matchesTechTerm (extractContentFromMessage
          (MsgBody.str "ReAct agent pattern implementation")) t = false) ∧
    calculateRelevanceScore
      ⟨"u1", 0, "user", MsgBody.str "ReAct agent pattern implementation", none, "s1", none⟩
      "react hooks optimization" none = 0 :=
  ⟨⟨by decide, by decide⟩,
    relevance_strict_core_veto
      ⟨"u1", 0, "user", MsgBody.str "ReAct agent pattern implementation", none, "s1", none⟩
      "react hooks optimization" none (by decide) (by decide)⟩

/-- Claim C3: the Term Matcher accepts a case-insensitive word hit exactly
when the cleaned word is entirely lowercase, entirely uppercase, or exactly
title-case, and otherwise keeps scanning; in particular
`matches("a ReAct pattern", "react") = false`,
`matches("a React pattern", "react") = true`,
`matches("a REACT pattern", "react") = true`, and a casing-abnormal hit does
not stop a later normal hit from matching. -/
theorem termMatcher_casing_gate :
    (∀ content term, matchesTechTerm content term = true ↔
      ∃ w ∈ splitRuns techDelim content.toList,
        cleanWordOf w ≠ [] ∧
        (cleanWordOf w).map Char.toLower = term.toList.map Char.toLower ∧
        isNormalCase (cleanWordOf w) = true) ∧
    matchesTechTerm "a ReAct pattern" "react" = false ∧
    matchesTechTerm "a React pattern" "react" = true ∧
    matchesTechTerm "a REACT pattern" "react" = true ∧
    matchesTechTerm "not ReAct but later React" "react" = true := by
  refine ⟨?_, by decide, by decide, by decide, by decide⟩
  intro content term
  unfold matchesTechTerm
  rw [List.any_eq_true]
  constructor
  · rintro ⟨w, hw, hprop⟩
    simp only [Bool.and_eq_true, beq_iff_eq, Bool.not_eq_true'] at hprop
    exact ⟨w, hw, by
      simpa using List.isEmpty_eq_false.mp hprop.1.1, hprop.1.2, hprop.2⟩
  · rintro ⟨w, hw, hne, heq, hnorm⟩
    refine ⟨w, hw, ?_⟩
    simp only [Bool.and_eq_true, beq_iff_eq, Bool.not_eq_true']
    exact ⟨⟨by simpa using List.isEmpty_eq_false.mpr hne, heq⟩, hnorm⟩

/-- Claim C4: when both queries have at least 2 significant words and the
greedy matching loop records fewer than 2 significant-word matches, the
similarity is 0. -/
theorem similarity_significant_gate (q1 q2 : String)
    (h1 : 2 ≤ (significantOf (simWordsOf q1)).length)
    (h2 : 2 ≤ (significantOf (simWordsOf q2)).length)
    (h3 : (greedyOuter (significantOf (simWordsOf q1)) (significantOf (simWordsOf q2))
      (List.enumFrom 0 (simWordsOf q2)) (simWordsOf q1) (0, 0, [])).2.1 < 2) :
    calculateQuerySimilarity q1 q2 = 0 := by
  have hw1 : (simWordsOf q1).length ≠ 0 := by
    have := List.length_filter_le (fun w => 4 ≤ w.length && !simStopWords.contains w)
      (simWordsOf q1)
    unfold significantOf at h1
    omega
  have hw2 : (simWordsOf q2).length ≠ 0 := by
    have := List.length_filter_le (fun w => 4 ≤ w.length && !simStopWords.contains w)
      (simWordsOf q2)
    unfold significantOf at h2
    omega
  unfold calculateQuerySimilarity
  rw [if_neg (by push_neg; exact ⟨hw1, hw2⟩)]
  rw [if_pos ⟨h3, h1, h2⟩]

/-- Witness for C4: the spec's example pair — `"write unit tests"` and
`"test sidekick"` share only one (non-significant-counted) overlap, so the
similarity is 0. -/
theorem similarity_significant_gate_witness :
    (2 ≤ (significantOf (simWordsOf "write unit tests")).length ∧
      2 ≤ (significantOf (simWordsOf "test sidekick")).length ∧
      (greedyOuter (significantOf (simWordsOf "write unit tests"))
        (significantOf (simWordsOf "test sidekick"))
        (List.enumFrom 0 (simWordsOf "test sidekick"))
        (simWordsOf "write unit tests") (0, 0, [])).2.1 < 2) ∧
    calculateQuerySimilarity "write unit tests" "test sidekick" = 0 :=
  ⟨⟨by decide, by decide, by with_unfolding_all decide⟩,
    similarity_significant_gate "write unit tests" "test sidekick"
      (by decide) (by decide) (by with_unfolding_all decide)⟩

/-- Claim C8: deduplication is idempotent — running
`intelligentDeduplicate` on an already-deduplicated list returns it
unchanged, same records in the same order. -/
theorem intelligentDeduplicate_idempotent (l : List CompactMessage) :
    intelligentDeduplicate (intelligentDeduplicate l) = intelligentDeduplicate l :=
  intelligentDeduplicate_fixed _ (intelligentDeduplicate_sigs_distinct l)

/-! ## Similarity lemmas (for C5) -/

theorem partial_score_nonneg (m n : Nat) :
    0 ≤ (4/5 : ℚ) * ((↑(m ⊓ n) : ℚ) / (↑(m ⊔ n) : ℚ)) :=
  mul_nonneg (by norm_num) (div_nonneg (Nat.cast_nonneg _) (Nat.cast_nonneg _))

theorem partial_score_le_one (m n : Nat) :
    (4/5 : ℚ) * ((↑(m ⊓ n) : ℚ) / (↑(m ⊔ n) : ℚ)) ≤ 1 := by
  by_cases h : ((m ⊔ n : Nat) : ℚ) = 0
  · rw [h, div_zero, mul_zero]; norm_num
  · have hpos : (0:ℚ) < ((m ⊔ n : Nat) : ℚ) :=
      lt_of_le_of_ne (Nat.cast_nonneg _) (Ne.symm h)
    have hr : ((m ⊓ n : Nat) : ℚ) / ((m ⊔ n : Nat) : ℚ) ≤ 1 := by
      rw [div_le_one hpos]
      exact_mod_cast inf_le_sup
    calc (4/5 : ℚ) * ((↑(m ⊓ n) : ℚ) / (↑(m ⊔ n) : ℚ))
        ≤ (4/5) * 1 := mul_le_mul_of_nonneg_left hr (by norm_num)
      _ ≤ 1 := by norm_num

theorem ite_nonneg (c : Prop) [Decidable c] (a b : ℚ) (ha : 0 ≤ a) (hb : 0 ≤ b) :
    0 ≤ (if c then a else b) := by
  by_cases hc : c
  · rwa [if_pos hc]
  · rwa [if_neg hc]

theorem ite_le_one (c : Prop) [Decidable c] (a b : ℚ) (ha : a ≤ 1) (hb : b ≤ 1) :
    (if c then a else b) ≤ 1 := by
  by_cases hc : c
  · rwa [if_pos hc]
  · rwa [if_neg hc]

theorem pairScore_nonneg (w1 w2 : String) : 0 ≤ pairScore w1 w2 := by
  unfold pairScore
  refine ite_nonneg _ _ _ (by norm_num) ?_
  refine ite_nonneg _ _ _ ?_ ?_
  · exact ite_nonneg _ _ _ (partial_score_nonneg w1.length w2.length) (by norm_num)
  · exact ite_nonneg _ _ _ (by norm_num) (ite_nonneg _ _ _ (by norm_num) (by norm_num))

theorem pairScore_le_one (w1 w2 : String) : pairScore w1 w2 ≤ 1 := by
  unfold pairScore
  refine ite_le_one _ _ _ (by norm_num) ?_
  refine ite_le_one _ _ _ ?_ ?_
  · exact ite_le_one _ _ _ (partial_score_le_one w1.length w2.length) (by norm_num)
  · exact ite_le_one _ _ _ (by norm_num) (ite_le_one _ _ _ (by norm_num) (by norm_num))

theorem pairScore_self (w : String) : pairScore w w = 1 := by
  unfold pairScore
  rw [if_pos (beq_self_eq_true w)]

theorem pairSigInc_self (w : String) (s : Bool) :
    pairSigInc w w s s = if s then 1 else 0 := by
  unfold pairSigInc
  rw [if_pos (beq_self_eq_true w)]
  rw [Bool.and_self]

theorem innerScan_fst_mono (w1 : String) (s1 : Bool) (sig2 : List String)
    (matched : List Nat) :
    ∀ (L : List (Nat × String)) (st : ℚ × Option Nat × Nat),
    st.1 ≤ (innerScan w1 s1 sig2 matched L st).1 := by
  intro L
  induction L with
  | nil => intro st; simp [innerScan]
  | cons p rest ih =>
    intro st
    obtain ⟨j, w2⟩ := p
    obtain ⟨bm, bi, acc⟩ := st
    simp only [innerScan]
    by_cases hj : matched.contains j
    · rw [if_pos hj]; exact ih (bm, bi, acc)
    · rw [if_neg hj]
      by_cases hlt : bm < pairScore w1 w2
      · rw [if_pos hlt]
        exact le_trans (le_of_lt hlt) (ih _)
      · rw [if_neg hlt]
        exact ih ((bm, bi, acc + pairSigInc w1 w2 s1 (sig2.contains w2)) :
          ℚ × Option Nat × Nat)

theorem innerScan_skip (w1 : String) (s1 : Bool) (sig2 : List String)
    (matched : List Nat) :
    ∀ (L R : List (Nat × String)) (st : ℚ × Option Nat × Nat),
    (∀ p ∈ L, matched.contains p.1 = true) →
    innerScan w1 s1 sig2 matched (L ++ R) st = innerScan w1 s1 sig2 matched R st := by
  intro L
  induction L with
  | nil => intro R st _; rfl
  | cons p rest ih =>
    intro R st h
    obtain ⟨j, w2⟩ := p
    obtain ⟨bm, bi, acc⟩ := st
    simp only [List.cons_append, innerScan]
    rw [if_pos (h (j, w2) (List.mem_cons_self _ _))]
    exact ih R (bm, bi, acc) (fun p hp => h p (List.mem_cons_of_mem _ hp))

theorem innerScan_stuck (w1 : String) (s1 : Bool) (sig2 : List String)
    (matched : List Nat) :
    ∀ (L : List (Nat × String)) (bi : Option Nat) (acc : Nat),
    ∃ k, innerScan w1 s1 sig2 matched L (1, bi, acc) = (1, bi, acc + k) := by
  intro L
  induction L with
  | nil => intro bi acc; exact ⟨0, rfl⟩
  | cons p rest ih =>
    intro bi acc
    obtain ⟨j, w2⟩ := p
    simp only [innerScan]
    by_cases hj : matched.contains j
    · rw [if_pos hj]; exact ih bi acc
    · rw [if_neg hj]
      have hle : ¬((1:ℚ) < pairScore w1 w2) :=
        not_lt.mpr (pairScore_le_one w1 w2)
      rw [if_neg hle]
      obtain ⟨k, hk⟩ := ih bi (acc + pairSigInc w1 w2 s1 (sig2.contains w2))
      exact ⟨pairSigInc w1 w2 s1 (sig2.contains w2) + k, by rw [hk, Nat.add_assoc]⟩

theorem greedy_fst_mono (sig1 sig2 : List String) (w2e : List (Nat × String)) :
    ∀ (l : List String) (st : ℚ × Nat × List Nat),
    st.1 ≤ (greedyOuter sig1 sig2 w2e l st).1 := by
  intro l
  induction l with
  | nil => intro st; simp [greedyOuter]
  | cons w1 rest ih =>
    intro st
    obtain ⟨total, sigM, matched⟩ := st
    simp only [greedyOuter]
    have hr : (0:ℚ) ≤ (innerScan w1 (sig1.contains w1) sig2 matched w2e (0, none, 0)).1 :=
      innerScan_fst_mono w1 _ sig2 matched w2e (0, none, 0)
    cases hbi : (innerScan w1 (sig1.contains w1) sig2 matched w2e (0, none, 0)).2.1 with
    | some j =>
      simp only
      calc (total : ℚ) ≤ total + _ := le_add_of_nonneg_right hr
        _ ≤ _ := ih _
    | none =>
      simp only
      exact ih _

theorem enumFrom_append (n : Nat) (xs ys : List α) :
    List.enumFrom n (xs ++ ys) =
      List.enumFrom n xs ++ List.enumFrom (n + xs.length) ys := by
  induction xs generalizing n with
  | nil => simp
  | cons x rest ih =>
    simp only [List.cons_append, List.enumFrom_cons, ih (n + 1), List.length_cons]
    rw [Nat.add_assoc, Nat.add_comm 1 rest.length]

theorem mem_enumFrom_bounds (n : Nat) (xs : List α) :
    ∀ p ∈ List.enumFrom n xs, n ≤ p.1 ∧ p.1 < n + xs.length := by
  induction xs generalizing n with
  | nil => intro p hp; simp at hp
  | cons x rest ih =>
    intro p hp
    rcases List.mem_cons.mp hp with h1 | h1
    · rw [h1]; simp
    · have := ih (n + 1) p h1
      simp only [List.length_cons]
      omega

/-- Scanning the enumerated word list of a query against one of its own
words, with exactly the indices below `i` already matched, finds the word at
index `i` itself with score 1. -/
theorem innerScan_self (sig2 : List String) (w : String) (s1 : Bool)
    (matched : List Nat) (pre post : List String)
    (hm : ∀ j : Nat, matched.contains j = true ↔ j < pre.length) :
    ∃ k, innerScan w s1 sig2 matched
      (List.enumFrom 0 (pre ++ w :: post)) (0, none, 0) =
      (1, some pre.length, pairSigInc w w s1 (sig2.contains w) + k) := by
  rw [enumFrom_append, innerScan_skip]
  · rw [Nat.zero_add, List.enumFrom_cons]
    have hnotm : ¬(matched.contains pre.length = true) := by
      rw [hm pre.length]; omega
    simp only [innerScan, if_neg hnotm]
    rw [if_pos (by rw [pairScore_self w]; norm_num)]
    rw [pairScore_self w]
    obtain ⟨k, hk⟩ := innerScan_stuck w s1 sig2 matched
      (List.enumFrom (pre.length + 1) post) (some pre.length)
      (0 + pairSigInc w w s1 (sig2.contains w))
    refine ⟨k, ?_⟩
    rw [hk]
    simp
  · intro p hp
    have := mem_enumFrom_bounds 0 pre p hp
    rw [hm p.1]
    omega

/-- The greedy outer loop of `calculateQuerySimilarity`, run on a query
against itself: every word matches itself exactly (total score grows by 1
per word) and the significant-match counter accumulates at least one tick
per significant word. -/
theorem greedy_self (sig : List String) :
    ∀ (post pre : List String) (total : ℚ) (sigM : Nat) (matched : List Nat),
    (∀ j : Nat, matched.contains j = true ↔ j < pre.length) →
    ∃ sigM' matched',
      greedyOuter sig sig (List.enumFrom 0 (pre ++ post)) post (total, sigM, matched) =
        (total + post.length, sigM', matched') ∧
      sigM + post.countP (fun w => sig.contains w) ≤ sigM' := by
  intro post
  induction post with
  | nil =>
    intro pre total sigM matched _
    refine ⟨sigM, matched, ?_, by simp⟩
    simp [greedyOuter]
  | cons w rest ih =>
    intro pre total sigM matched hm
    obtain ⟨k, hk⟩ := innerScan_self sig w (sig.contains w) matched pre rest hm
    simp only [greedyOuter, hk]
    have hm' : ∀ j : Nat, ((pre.length :: matched).contains j = true) ↔
        j < (pre ++ [w]).length := by
      intro j
      simp only [List.contains_cons, Bool.or_eq_true, beq_iff_eq, hm j,
        List.length_append, List.length_singleton]
      omega
    have hre : pre ++ w :: rest = (pre ++ [w]) ++ rest := by simp
    obtain ⟨sigM', matched', hg, hb⟩ := ih (pre ++ [w]) (total + 1)
      (sigM + (pairSigInc w w (sig.contains w) (sig.contains w) + k))
      (pre.length :: matched) hm'
    rw [← hre] at hg
    refine ⟨sigM', matched', ?_, ?_⟩
    · rw [hg]
      congr 1
      push_cast [List.length_cons]
      ring
    · rw [List.countP_cons]
      rw [pairSigInc_self] at hb
      by_cases hw : sig.contains w
      · simp only [hw, if_pos] at hb ⊢
        omega
      · simp only [hw] at hb ⊢
        simp only [Bool.false_eq_true, if_false] at hb ⊢
        omega

theorem sim_words_empty (a b : String) (h : simWordsOf a = []) :
    calculateQuerySimilarity a b = 0 := by
  simp only [calculateQuerySimilarity]
  rw [if_pos (Or.inl (by rw [h]; rfl))]

theorem sim_le_one (a b : String) : calculateQuerySimilarity a b ≤ 1 := by
  simp only [calculateQuerySimilarity]
  refine ite_le_one _ _ _ (by norm_num) ?_
  refine ite_le_one _ _ _ (by norm_num) ?_
  exact min_le_right _ _

theorem sim_nonneg (a b : String) : 0 ≤ calculateQuerySimilarity a b := by
  simp only [calculateQuerySimilarity]
  refine ite_nonneg _ _ _ (le_refl 0) ?_
  refine ite_nonneg _ _ _ (le_refl 0) ?_
  refine le_min ?_ (by norm_num)
  refine add_nonneg ?_ ?_
  · refine mul_nonneg (mul_nonneg ?_ ?_) ?_
    · exact div_nonneg
        (greedy_fst_mono _ _ _ _ ((0 : ℚ), (0 : Nat), ([] : List Nat)))
        (Nat.cast_nonneg _)
    · exact div_nonneg (Nat.cast_nonneg _) (Nat.cast_nonneg _)
    · exact ite_nonneg _ _ _ (by norm_num) (by norm_num)
  · exact mul_nonneg (div_nonneg (Nat.cast_nonneg _) (Nat.cast_nonneg _)) (by norm_num)

theorem sim_self (a : String) (h : simWordsOf a ≠ []) :
    calculateQuerySimilarity a a = 1 := by
  have hlen : (simWordsOf a).length ≠ 0 := fun hc => h (List.length_eq_zero.mp hc)
  obtain ⟨sigM', matched', hg, hb⟩ := greedy_self (significantOf (simWordsOf a))
    (simWordsOf a) [] 0 0 [] (by simp)
  simp only [List.nil_append] at hg
  have hsig : (significantOf (simWordsOf a)).length ≤ sigM' := by
    have h1 : (significantOf (simWordsOf a)).length =
        (simWordsOf a).countP (fun w => 4 ≤ w.length && !simStopWords.contains w) := by
      rw [significantOf, ← List.countP_eq_length_filter]
    have h2 : (simWordsOf a).countP (fun w => 4 ≤ w.length && !simStopWords.contains w) ≤
        (simWordsOf a).countP (fun w => (significantOf (simWordsOf a)).contains w) := by
      refine List.countP_mono_left ?_
      intro x hx hpx
      have hmem : x ∈ significantOf (simWordsOf a) :=
        List.mem_filter.mpr ⟨hx, hpx⟩
      exact List.elem_iff.mpr hmem
    omega
  have hfil : ((simWordsOf a).map stemWord).filter
      (fun w => ((simWordsOf a).map stemWord).contains w) =
      (simWordsOf a).map stemWord := by
    refine List.filter_eq_self.mpr ?_
    intro x hx
    exact List.elem_iff.mpr hx
  simp only [calculateQuerySimilarity]
  rw [if_neg (by push_neg; exact ⟨hlen, hlen⟩)]
  rw [hg]
  dsimp only
  rw [if_neg (by rintro ⟨hlt, hge, _⟩; omega)]
  rw [hfil]
  simp only [max_self, min_self, List.length_map, zero_add]
  rw [div_self (by exact_mod_cast hlen)]
  by_cases htech : ((simWordsOf a).any (fun w => simTechList.contains w) ||
      (simWordsOf a).any (fun w => simTechList.contains w)) = true
  · rw [if_pos htech]
    norm_num [min_def]
  · rw [if_neg htech]
    norm_num [min_def]

/-- Claim C5: similarity is bounded in [0, 1], and self-similarity is the
maximum achievable value of `similarity(a, ·)`. -/
theorem similarity_bounds_and_self_max :
    (∀ a b, 0 ≤ calculateQuerySimilarity a b ∧ calculateQuerySimilarity a b ≤ 1) ∧
    (∀ a b, calculateQuerySimilarity a b ≤ calculateQuerySimilarity a a) := by
  refine ⟨fun a b => ⟨sim_nonneg a b, sim_le_one a b⟩, fun a b => ?_⟩
  by_cases h : simWordsOf a = []
  · rw [sim_words_empty a b h, sim_words_empty a a h]
  · rw [sim_self a h]
    exact sim_le_one a b

/-! ## Content Classifier & Adaptive Truncator (parser.ts)

The JS regular expressions of this module are hand-compiled to executable
scanners over `List Char`; each definition's doc comment quotes the regex it
implements. -/

/-- Scan every suffix position of a list for a prefix-shaped hit. -/
def scanAny (p : List Char → Bool) : List Char → Bool
  | [] => p []
  | c :: rest => p (c :: rest) || scanAny p rest

/-- JS word character `\w` (without hyphen). -/
def isW (c : Char) : Bool := c.isAlphanum || c == '_'

/-- `/at \w+|line \d+|:\d+:\d+/` — the three alternatives tested anywhere. -/
def hasStackTraceMark (l : List Char) : Bool :=
  scanAny (fun s =>
    match s with
    | 'a' :: 't' :: ' ' :: c :: _ => isW c
    | _ => false) l ||
  scanAny (fun s =>
    match s with
    | 'l' :: 'i' :: 'n' :: 'e' :: ' ' :: c :: _ => c.isDigit
    | _ => false) l ||
  scanAny (fun s =>
    match s with
    | ':' :: rest =>
      !(rest.takeWhile Char.isDigit).isEmpty &&
        (match rest.dropWhile Char.isDigit with
         | ':' :: c :: _ => c.isDigit
         | _ => false)
    | _ => false) l

/-- `/\{\s*\n.*\}\s*$/s`, part 1: some `\x7b` followed by optional whitespace
containing a newline (the whitespace run after the brace must reach a
newline). -/
def hasBraceNewline : List Char → Bool
  | [] => false
  | c :: rest =>
    (c == '\x7b' && (rest.takeWhile isWs).contains '\n') || hasBraceNewline rest

/-- `/\{\s*\n.*\}\s*$/s`: a brace-newline opener somewhere and a closing
brace as the last non-whitespace character.  The closer necessarily follows
the opener's newline, because only whitespace may trail the closer. -/
def hasBraceBlock (l : List Char) : Bool :=
  hasBraceNewline l &&
    (match l.reverse.dropWhile isWs with
     | '\x7d' :: _ => true
     | _ => false)

/-- The file extensions of `detectContentType`'s technical regex
`/\.(ts|js|json|md|py|java|cpp|rs|go|yml|yaml)\b/`. -/
def detectExtList : List String :=
  ["ts", "js", "json", "md", "py", "java", "cpp", "rs", "go", "yml", "yaml"]

/-- `\.ext\b`: a dot, one of the extensions, then a non-word boundary. -/
def hasFileExtMark (l : List Char) : Bool :=
  scanAny (fun s =>
    match s with
    | '.' :: rest =>
      detectExtList.any (fun e =>
        e.toList.isPrefixOf rest &&
          (match rest.drop e.length with
           | [] => true
           | c :: _ => !isW c))
    | _ => false) l

/-- `/\w+:\d+/`: a word character directly followed by a colon and a digit. -/
def hasWordColonDigit (l : List Char) : Bool :=
  scanAny (fun s =>
    match s with
    | c1 :: ':' :: c2 :: _ => isW c1 && c2.isDigit
    | _ => false) l

/-- `detectContentType(content)` (parser.ts): code, else error, else
technical, else conversational, first match wins. -/
def detectContentType (content : String) : String :=
  let l := content.toList
  let lower := lowerStr content
  if strIncludes content "```" || strIncludes content "function " ||
     strIncludes content "const " || strIncludes content "import " ||
     strIncludes content "export " || hasBraceBlock l then "code"
  else if (strIncludes lower "error" || strIncludes lower "exception" ||
      strIncludes lower "failed" || strIncludes lower "cannot" ||
      strIncludes lower "unable to" || strIncludes lower "stack trace") &&
      hasStackTraceMark l then "error"
  else if hasFileExtMark l || strIncludes content "src/" || strIncludes content "./" ||
      hasWordColonDigit l || strIncludes content "tool_use" then "technical"
  else "conversational"

/-- `getContentLimit(content)` (parser.ts): type-specific display budget. -/
def getContentLimit (content : String) : Nat :=
  match detectContentType content with
  | "code" => 4000
  | "error" => 3500
  | "technical" => 3500
  | _ => 3000

/-- Index of the first occurrence of `needle` in `hay` (start positions
scanned left to right), the JS `indexOf`. -/
def indexOfSub (hay needle : List Char) : Option Nat :=
  (List.range (hay.length + 1)).find? (fun i => needle.isPrefixOf (hay.drop i))

/-- Last start position `≤ from` at which `needle` occurs, the JS
`lastIndexOf(needle, from)`. -/
def lastIndexOfSub (hay needle : List Char) (fromIdx : Nat) : Option Nat :=
  (List.range (min fromIdx hay.length + 1)).reverse.find?
    (fun i => needle.isPrefixOf (hay.drop i))

/-- `intelligentTruncation(content, maxLength)` (parser.ts): cut at the last
natural boundary before the budget provided it is past 70% of the budget,
else a hard character cut, always with an ellipsis. -/
def intelligentTruncation (content : String) (maxLength : Nat) : String :=
  if content.length ≤ maxLength then content
  else
    let l := content.toList
    let boundaries := ["\n\n", ". ", "! ", "? ", "\n", ", ", " "]
    let hit := boundaries.findSome? (fun b =>
      match lastIndexOfSub l b.toList (maxLength - 3) with
      | some i => if ((7:ℚ)/10) * (maxLength : ℚ) < (i : ℚ) then some i else none
      | none => none)
    match hit with
    | some i => String.mk (l.take i) ++ "..."
    | none => String.mk (l.take (maxLength - 3)) ++ "..."

/-- `hasStructuredContent(content)` (parser.ts); the regex
`/at \w+.*:\d+:\d+/` requires the colon-digit pair on the same line as the
`at `-word. -/
def hasStructuredContent (content : String) : Bool :=
  let l := content.toList
  strIncludes content "function " || strIncludes content "Error:" ||
  strIncludes content "Exception:" || strIncludes content "```" ||
  scanAny (fun s =>
    match s with
    | 'a' :: 't' :: ' ' :: c :: rest =>
      isW c &&
        scanAny (fun t =>
          match t with
          | ':' :: r =>
            !(r.takeWhile Char.isDigit).isEmpty &&
              (match r.dropWhile Char.isDigit with
               | ':' :: d :: _ => d.isDigit
               | _ => false)
          | _ => false) (rest.takeWhile (fun c2 => c2 ≠ '\n'))
    | _ => false) l ||
  strIncludes content "Solution:" || strIncludes content "TypeError:"

/-- First match of `/function\s+\w+[^}]*\}/`: the keyword, whitespace, a
word, then everything up to (and including) the next closing brace. -/
def firstFunctionMatch (l : List Char) : Option (List Char) :=
  (List.range (l.length + 1)).findSome? (fun i =>
    let s := l.drop i
    if "function".toList.isPrefixOf s then
      let afterKw := s.drop 8
      let ws := afterKw.takeWhile isWs
      if ws.isEmpty then none
      else
        let afterWs := afterKw.dropWhile isWs
        let w := afterWs.takeWhile isW
        if w.isEmpty then none
        else
          let afterW := afterWs.drop w.length
          let nonBr := afterW.takeWhile (fun c => c ≠ '\x7d')
          match afterW.drop nonBr.length with
          | '\x7d' :: _ =>
            some ("function".toList ++ ws ++ w ++ nonBr ++ ['\x7d'])
          | _ => none
    else none)

/-- The lazy multi-line tail `[^\n]*(\n[^\n]*)*?(?=\n\n|\n[A-Z]|$)` after a
matched keyword; consumes the rest of the current line, then whole further
lines until the earliest blank-line / capitalized-line lookahead or the end
of input. -/
def lazyLineTail : Nat → List Char → List Char
  | 0, _ => []
  | _, [] => []
  | fuel + 1, l =>
    let line := l.takeWhile (fun c => c ≠ '\n')
    let rest := l.drop line.length
    match rest with
    | [] => line
    | '\n' :: '\n' :: _ => line
    | '\n' :: c :: r =>
      if 'A' ≤ c ∧ c ≤ 'Z' then line
      else line ++ '\n' :: lazyLineTail fuel (c :: r)
    | '\n' :: [] => line ++ ['\n']
    | _ => line

/-- First match of `/(Error|Exception|TypeError):[^\n]*(\n[^\n]*)*?(?=...)/`
style patterns: keyword-with-colon then the lazy line tail. -/
def firstKeywordSpan (keywords : List String) (l : List Char) : Option (List Char) :=
  (List.range (l.length + 1)).findSome? (fun i =>
    let s := l.drop i
    keywords.findSome? (fun kw =>
      if kw.toList.isPrefixOf s then
        some (kw.toList ++ lazyLineTail s.length (s.drop kw.length))
      else none))

/-- A prioritized section kept by `preserveStructuredContent`. -/
structure StructSection where
  content : List Char
  priority : Nat
deriving DecidableEq

/-- `preserveStructuredContent(content, maxLength)` (parser.ts): first
function definition, first error message, first solution span, sorted by
priority, concatenated while they fit. -/
def preserveStructuredContent (content : String) (maxLength : Nat) : String :=
  let l := content.toList
  let sections : List StructSection :=
    (match firstFunctionMatch l with
     | some m => [⟨m, 3⟩]
     | none => []) ++
    (match firstKeywordSpan ["Error:", "Exception:", "TypeError:"] l with
     | some m => [⟨m, 3⟩]
     | none => []) ++
    (match firstKeywordSpan ["Solution:"] l with
     | some m => [⟨m, 2⟩]
     | none => [])
  let sorted := sortDescBy (fun s => (s.priority : ℚ)) sections
  let result := (sorted.foldl (fun (st : List Char × Bool) s =>
    let (res, stopped) := st
    if stopped then st
    else if res.length + s.content.length + 2 ≤ maxLength then
      (res ++ s.content ++ ['\n', '\n'], false)
    else
      let remaining : Int := (maxLength : Int) - res.length - 5
      if 50 < remaining then
        (res ++ s.content.take remaining.toNat ++ "...".toList, true)
      else (res, true)) ([], false)).1
  jsTrim (String.mk result)

/-- The noise phrases that disqualify a sentence in
`extractMostValuableContent`. -/
def sentenceNoiseList : List String :=
  ["this session is being continued", "caveat:", "command-name>",
   "generated by the user while running", "local-command-stdout",
   "analysis:", "command-message>", "system-reminder"]

/-- The high-value keyword list of `extractMostValuableContent`. -/
def highValueTerms : List String :=
  ["solution", "fix", "error", "problem", "resolved", "working", "success",
   "function", "class", "import", "export", "const", "let", "var",
   "install", "update", "create", "build", "test", "deploy",
   "file", "path", "directory", "config", "settings"]

/-- The per-sentence score of `extractMostValuableContent` (can be driven
negative by the noise penalty). -/
def sentenceScore (contentLen : Nat) (sentence : String) : Int :=
  let lowerSentence := lowerStr sentence
  let score : Int :=
    highValueTerms.foldl (fun sc t => if strIncludes lowerSentence t then sc + 2 else sc) 0
  let score := score +
    (if strIncludes sentence "`" || strIncludes sentence "/" ||
        strIncludes sentence ".ts" || strIncludes sentence ".js" then 3 else 0)
  let score := score +
    (if strIncludes lowerSentence "now" || strIncludes lowerSentence "result" ||
        strIncludes lowerSentence "this will" then 2 else 0)
  let score := score + (if sentence.length < 40 then -1 else 0)
  let score := score +
    (if sentenceNoiseList.any (fun p => strIncludes lowerSentence p) ∨ contentLen < 50
     then -50 else 0)
  score

/-- `extractMostValuableContent(content, maxLength)` (parser.ts):
structured content is delegated; conversational content is split into
sentences, scored, and repacked best-first. -/
def extractMostValuableContent (content : String) (maxLength : Nat) : String :=
  if hasStructuredContent content then preserveStructuredContent content maxLength
  else
    let sentences := ((jsSplit (fun c => c == '.' || c == '!' || c == '?') content).filter
      (fun s => 20 < (jsTrim s).length))
    let scoredSentences := sentences.map (fun s => (jsTrim s, sentenceScore content.length s))
    let sorted := sortDescBy (fun p => ((p.2 : Int) : ℚ))
      (scoredSentences.filter (fun p => 0 < p.2))
    let result := (sorted.foldl (fun (st : String × Bool) p =>
      let (res, stopped) := st
      if stopped then st
      else if res.length + p.1.length + 2 ≤ maxLength then
        (res ++ p.1 ++ ". ", false)
      else (res, true)) ("", false)).1
    let trimmed := jsTrim result
    if trimmed = "" then String.mk (content.toList.take (maxLength - 3)) ++ "..."
    else trimmed

/-- All `/```[\s\S]*?```/g` matches: fenced blocks, scanned left to right,
non-overlapping.  The fuel argument (initialized to the input length) only
bounds the recursion. -/
def collectCodeBlocks : Nat → List Char → List (List Char)
  | 0, _ => []
  | fuel + 1, l =>
    match indexOfSub l "```".toList with
    | none => []
    | some i =>
      let afterOpen := l.drop (i + 3)
      match indexOfSub afterOpen "```".toList with
      | none => []
      | some j =>
        (l.drop i).take (3 + j + 3) :: collectCodeBlocks fuel (afterOpen.drop (j + 3))

/-- The file-path character class (word characters, hyphen, slash,
backslash, dot) of `preserveTechnicalContent`'s file-path regex. -/
def isPathChar (c : Char) : Bool :=
  isW c || c == '-' || c == '/' || c == '\\' || c == '.'

/-- The extension list of `preserveTechnicalContent`'s file-path regex
(path characters, a dot, one of these extensions, an optional `:line`). -/
def techExtList : List String :=
  ["ts", "js", "json", "md", "py", "java", "cpp", "rs", "go", "yml", "yaml"]

/-- Attempt the file-path regex at one start position: greedy path
characters, backtracking to the latest dot that is followed by a known
extension, then an optional `:line` suffix. -/
def filePathMatchAt (s : List Char) : Option (List Char × List Char) :=
  let run := s.takeWhile isPathChar
  if run.isEmpty then none
  else
    ((List.range run.length).reverse.findSome? (fun e =>
      if h : e < run.length then
        if run.get ⟨e, h⟩ == '.' then
          techExtList.findSome? (fun ext =>
            if ext.toList.isPrefixOf (run.drop (e + 1)) then
              some (e + 1 + ext.length)
            else none)
        else none
      else none)).map (fun endPos =>
      let afterCore := s.drop endPos
      let withColon :=
        match afterCore with
        | ':' :: r =>
          let ds := r.takeWhile Char.isDigit
          if ds.isEmpty then endPos else endPos + 1 + ds.length
        | _ => endPos
      (s.take withColon, s.drop withColon))

/-- All matches of a position-wise matcher, scanning left to right and
resuming after each match (the JS global-flag `exec` loop).  Fuel bounds
the recursion. -/
def collectMatches (matchAt : List Char → Option (List Char × List Char)) :
    Nat → List Char → List (List Char)
  | 0, _ => []
  | _, [] => []
  | fuel + 1, c :: rest =>
    match matchAt (c :: rest) with
    | some (m, after) =>
      if m.isEmpty then collectMatches matchAt fuel rest
      else m :: collectMatches matchAt fuel after
    | none => collectMatches matchAt fuel rest

/-- One-position matcher for
`/(function \w+|const \w+ =|export \w+|class \w+)/g`. -/
def functionDefMatchAt (s : List Char) : Option (List Char × List Char) :=
  let kwWord := fun (kw : String) =>
    if kw.toList.isPrefixOf s then
      let w := (s.drop kw.length).takeWhile isW
      if w.isEmpty then none
      else some (kw.toList ++ w, s.drop (kw.length + w.length))
    else none
  match kwWord "function " with
  | some r => some r
  | none =>
    match (if "const ".toList.isPrefixOf s then
        let w := (s.drop 6).takeWhile isW
        if w.isEmpty then none
        else if " =".toList.isPrefixOf (s.drop (6 + w.length)) then
          some ("const ".toList ++ w ++ " =".toList, s.drop (6 + w.length + 2))
        else none
      else none) with
    | some r => some r
    | none =>
      match kwWord "export " with
      | some r => some r
      | none => kwWord "class "

/-- One-position matcher for `/tool_use.*?"name":\s*"([^"]+)"/g` (the dot
does not cross newlines; `\s*` may). -/
def toolUseMatchAt (s : List Char) : Option (List Char × List Char) :=
  if "tool_use".toList.isPrefixOf s then
    let afterKw := s.drop 8
    let line := afterKw.takeWhile (fun c => c ≠ '\n')
    match indexOfSub line "\"name\":".toList with
    | none => none
    | some i =>
      let afterName := afterKw.drop (i + 7)
      let ws := afterName.takeWhile isWs
      match afterName.drop ws.length with
      | '"' :: r =>
        let nm := r.takeWhile (fun c => c ≠ '"')
        if nm.isEmpty then none
        else
          match r.drop nm.length with
          | '"' :: _ =>
            let total := 8 + i + 7 + ws.length + 1 + nm.length + 1
            some (s.take total, s.drop total)
          | _ => none
      | _ => none
  else none

/-- One-position matcher for inline-code commands `` /`[^`]+`/g ``. -/
def backtickMatchAt (s : List Char) : Option (List Char × List Char) :=
  match s with
  | c :: r =>
    if c == Char.ofNat 96 then
      let inner := r.takeWhile (fun d => d ≠ Char.ofNat 96)
      if inner.isEmpty then none
      else
        match r.drop inner.length with
        | d :: _ =>
          if d == Char.ofNat 96 then
            some (s.take (inner.length + 2), s.drop (inner.length + 2))
          else none
        | [] => none
    else none
  | [] => none

/-- `preserveTechnicalContent(content, maxLength)` (parser.ts): extract file
paths, definitions, tool usages and inline commands, join them with a
separator, and prepend leading context when they fit. -/
def preserveTechnicalContent (content : String) (maxLength : Nat) : String :=
  let l := content.toList
  let technicalElements :=
    collectMatches filePathMatchAt l.length l ++
    collectMatches functionDefMatchAt l.length l ++
    collectMatches toolUseMatchAt l.length l ++
    collectMatches backtickMatchAt l.length l
  if technicalElements.length > 0 then
    let preserved := String.intercalate " | " (technicalElements.map String.mk)
    if preserved.length ≤ maxLength then
      let contextLength : Int := (maxLength : Int) - preserved.length - 20
      let context := String.mk (l.take contextLength.toNat)
      context ++ "\n--- Key elements: " ++ preserved
    else intelligentTruncation content maxLength
  else intelligentTruncation content maxLength

/-- `preserveCodeBlocks(content, maxLength)` (parser.ts): pack whole fenced
blocks while they fit; on the first that does not, emit 100 characters of
leading context plus a truncated block and stop. -/
def preserveCodeBlocks (content : String) (maxLength : Nat) : String :=
  let l := content.toList
  let codeBlocks := collectCodeBlocks l.length l
  if codeBlocks.length > 0 then
    let result := (codeBlocks.foldl (fun (st : List Char × Int × Bool) block =>
      let (preserved, remaining, stopped) := st
      if stopped then st
      else if (block.length : Int) ≤ remaining then
        (preserved ++ block ++ ['\n'], remaining - block.length - 1, false)
      else
        let contextBefore :=
          match indexOfSub l block with
          | some bi => (l.take bi).reverse.take 100 |>.reverse
          | none => []
        (preserved ++ contextBefore ++
          block.take (remaining - contextBefore.length - 3).toNat ++ "...".toList,
         remaining, true)) ([], (maxLength : Int), false)).1
    jsTrim (String.mk result)
  else preserveTechnicalContent content maxLength

/-- All matches of `/(error|exception|failed)[\s\S]*?(\n\n|\n(?=[A-Z])|$)/gi`:
from each keyword hit, the lazy span to the earliest blank line,
newline-before-capital, or end of input. -/
def collectErrorSpans : Nat → List Char → List (List Char)
  | 0, _ => []
  | _, [] => []
  | fuel + 1, l =>
    let lower := l.map Char.toLower
    let hit := (List.range l.length).find? (fun i =>
      "error".toList.isPrefixOf (lower.drop i) ||
      "exception".toList.isPrefixOf (lower.drop i) ||
      "failed".toList.isPrefixOf (lower.drop i))
    match hit with
    | none => []
    | some i =>
      let s := l.drop i
      let spanLen := (List.range s.length).findSome? (fun j =>
        match s.drop j with
        | '\n' :: '\n' :: _ => some (j + 2)
        | '\n' :: c :: _ => if 'A' ≤ c ∧ c ≤ 'Z' then some (j + 1) else none
        | _ => none)
      match spanLen with
      | some n =>
        s.take n :: collectErrorSpans fuel (s.drop n)
      | none => [s]

/-- `preserveErrorMessages(content, maxLength)` (parser.ts): keep the first
complete error span when it fits, otherwise splice the head of the content
with the trailing stack trace, otherwise fall back to plain truncation. -/
def preserveErrorMessages (content : String) (maxLength : Nat) : String :=
  let l := content.toList
  let errors := collectErrorSpans l.length l
  match errors with
  | mainError :: restErrors =>
    if mainError.length ≤ maxLength then
      String.mk mainError ++
        (if restErrors.length > 0 then "\n... (additional errors truncated)" else "")
    else
      match indexOfSub l "at ".toList with
      | some i =>
        let stackTrace := l.drop i
        let errorPart := l.take ((maxLength : Int) - stackTrace.length - 10).toNat
        String.mk errorPart ++ "\n...\n" ++ String.mk stackTrace
      | none => intelligentTruncation content maxLength
  | [] =>
    match indexOfSub l "at ".toList with
    | some i =>
      let stackTrace := l.drop i
      let errorPart := l.take ((maxLength : Int) - stackTrace.length - 10).toNat
      String.mk errorPart ++ "\n...\n" ++ String.mk stackTrace
    | none => intelligentTruncation content maxLength

/-- `smartContentPreservation(content, maxLength)` (parser.ts): content
within budget is returned unchanged; otherwise the most valuable extract is
tried, then a type-specific truncation strategy. -/
def smartContentPreservation (content : String) (maxLength : Nat) : String :=
  if content.length ≤ maxLength then content
  else
    let valuableContent := extractMostValuableContent content maxLength
    if valuableContent.length ≤ maxLength then valuableContent
    else
      match detectContentType content with
      | "code" => preserveCodeBlocks content maxLength
      | "error" => preserveErrorMessages content maxLength
      | "technical" => preserveTechnicalContent content maxLength
      | _ => intelligentTruncation content maxLength

/-- Claim C7: any text strictly shorter than the budget passes through
`smartContentPreservation` unchanged, character for character. -/
theorem truncation_identity_below_budget (text : String) (budget : Nat)
    (h : text.length < budget) :
    smartContentPreservation text budget = text := by
  unfold smartContentPreservation
  rw [if_pos (Nat.le_of_lt h)]

/-- Witness for C7 at a concrete text and budget. -/
theorem truncation_identity_below_budget_witness :
    ("a short note about nothing".length < 120) ∧
    smartContentPreservation "a short note about nothing" 120 =
      "a short note about nothing" :=
  ⟨by decide, truncation_identity_below_budget "a short note about nothing" 120 (by decide)⟩

/-! ## Search entry points (formatter.ts `HistorySearchEngine`)

The corpus reader and partition directory are the spec's external
collaborators: a `Project` carries the partition id and its decoded files,
each already ordered most-recent-first, and each file is the list of raw
records its streaming decoder yields.  The time filter derived from the
`timeframe` argument by `getTimeRangeFilter` (clock arithmetic on ISO
timestamps) is modelled as an optional predicate on epoch-millisecond
timestamps. -/

/-- A corpus partition: its id and its decoded JSONL files,
most-recent-first. -/
structure Project where
  dir : String
  files : List (List ClaudeMsg)
deriving DecidableEq

/-- `SearchResult` (types.ts). -/
structure SearchResult where
  messages : List CompactMessage
  totalResults : Nat
  searchQuery : String
  executionTime : Int
deriving DecidableEq

/-- `ConversationParser.parseJsonlFile` (parser.ts), per record: apply the
time filter, extract content, drop empty-content records, truncate
adaptively, score against the query, and attach the derived context.  The
engine's bounded message cache is a pure performance layer (parsing is
deterministic per file), and `decodeProjectPath` is the external path
decoder, so the partition id stands for the decoded project path. -/
def parseFileModel (projectDir : String) (query : Option String)
    (timeFilter : Option (Int → Bool)) (file : List ClaudeMsg) :
    List CompactMessage :=
  file.filterMap (fun raw =>
    let keep := match timeFilter with | some f => f raw.timestamp | none => true
    if !keep then none
    else
      let content := extractContentFromMessage raw.body
      if content = "" then none
      else some
        { uuid := raw.uuid
          timestamp := raw.timestamp
          msgType := raw.msgType
          content := smartContentPreservation content (getContentLimit content)
          sessionId := raw.sessionId
          projectPath := projectDir
          relevanceScore :=
            match query with
            | some q => calculateRelevanceScore raw q (some projectDir)
            | none => 0
          finalScore := 0
          context := raw.derivedContext })

/-- The low-value string patterns of `isLowValueContent`. -/
def lowValueStringPatterns : List String :=
  ["local-command-stdout>(no content)", "command-name>/doctor",
   "system-reminder>", "much better! now i can see"]

/-- `/^(ok|yes|no|sure|thanks)\.?$/` on the lower-cased content. -/
def matchesShortAck (lowerContent : String) : Bool :=
  ["ok", "yes", "no", "sure", "thanks"].any
    (fun w => lowerContent == w || lowerContent == w ++ ".")

/-- `/^error:\s*$/`-style test: the tag followed by only whitespace. -/
def matchesEmptyTag (tag : String) (lowerContent : String) : Bool :=
  tag.toList.isPrefixOf lowerContent.toList &&
    (lowerContent.toList.drop tag.length).all isWs

/-- `isLowValueContent(content)` (formatter.ts). -/
def isLowValueContent (content : String) : Bool :=
  let lowerContent := lowerStr content
  (lowValueStringPatterns.any (fun p => strIncludes lowerContent p) ||
    matchesShortAck lowerContent ||
    matchesEmptyTag "error:" lowerContent ||
    matchesEmptyTag "warning:" lowerContent) ||
  (jsTrim content).length < 20

/-- The noise patterns of `isHighlyRelevant`. -/
def noisePatterns : List String :=
  ["this session is being continued", "caveat:", "command-name>",
   "local-command-stdout", "system-reminder", "command-message>",
   "much better! now i can see", "package.js", "export interface",
   "you are claude code", "read-only mode", "i cannot make changes",
   "i'm in plan mode", "hello! i'm claude", "i am claude",
   "ready to help you", "what would you like me to", "how can i assist",
   "i understand that i'm"]

/-- `matchesQueryIntent(message, analysis)` (formatter.ts). -/
def matchesQueryIntent (m : CompactMessage) (analysis : QueryAnalysis) : Bool :=
  let content := lowerStr m.content
  if analysis.qtype = "error" then
    strIncludes content "error" || strIncludes content "fix" ||
      strIncludes content "solution" || 0 < ctxLen m.context (·.errorPatterns)
  else if analysis.qtype = "implementation" then
    strIncludes content "implement" || strIncludes content "create" ||
      strIncludes content "function" || 0 < ctxLen m.context (·.codeSnippets)
  else if analysis.qtype = "analysis" then
    strIncludes content "analyze" || strIncludes content "understand" ||
      strIncludes content "explain" || (m.msgType == "assistant" && 100 < content.length)
  else
    0 < ctxLen m.context (·.toolsUsed) || (m.msgType == "assistant" && 80 < content.length)

/-- `isHighlyRelevant(message, query, analysis)` (formatter.ts). -/
def isHighlyRelevant (m : CompactMessage) (analysis : QueryAnalysis) : Bool :=
  let content := lowerStr m.content
  if noisePatterns.any (fun p => strIncludes content p) || content.length < 40 then false
  else if m.relevanceScore < (3/10 : ℚ) then false
  else matchesQueryIntent m analysis

/-- `Math.ceil(a / b)` on non-negative integers (every call site has a
non-empty divisor list, so the `b = 0` case is unreachable). -/
def jsCeilDiv (a b : Nat) : Nat := (a + b - 1) / b

/-- `processProjectFocused` (formatter.ts): scan at most 4 files, keep
per-file the intent-matching records above the relevance floor, stop once
the per-project target is reached. -/
def processProjectFocused (proj : Project) (query : String)
    (analysis : QueryAnalysis) (timeFilter : Option (Int → Bool))
    (targetPerProject : Nat) : List CompactMessage :=
  let priorityFiles := proj.files.take (min 4 proj.files.length)
  (priorityFiles.foldl (fun (st : List CompactMessage × Bool) file =>
    let (msgs, stopped) := st
    if stopped then st
    else
      let fileMessages := parseFileModel proj.dir (some query) timeFilter file
      let relevant := ((fileMessages.filter (fun m => 1 ≤ m.relevanceScore)).filter
        (fun m => matchesQueryIntent m analysis)).take
          (jsCeilDiv targetPerProject priorityFiles.length)
      let msgs2 := msgs ++ relevant
      (msgs2, targetPerProject ≤ msgs2.length)) ([], false)).1

/-- `gatherRelevantCandidates` (formatter.ts): fan out over the target
partitions, aggregate with the noise filter, stop early once enough
candidates are collected. -/
def gatherRelevantCandidates (targetDirs : List Project) (query : String)
    (analysis : QueryAnalysis) (timeFilter : Option (Int → Bool))
    (targetCount : Nat) : List CompactMessage :=
  let projectResults := targetDirs.map (fun proj =>
    processProjectFocused proj query analysis timeFilter
      (jsCeilDiv targetCount targetDirs.length))
  (projectResults.foldl (fun (st : List CompactMessage × Bool) dirMessages =>
    let (candidates, stopped) := st
    if stopped then st
    else
      let filtered := dirMessages.filter (fun m => isHighlyRelevant m analysis)
      let c2 := candidates ++ filtered
      (c2, targetCount ≤ c2.length)) ([], false)).1

/-- `performOptimizedSearch` (formatter.ts): worktree expansion is disabled
in the source (`expandWorktreeProjects` returns its input), the short-query
guard fires on the raw query length, then gather, re-rank, and apply the
final quality gate.  An empty-string project filter is JS-falsy and behaves
like no filter. -/
def performOptimizedSearch (projects : List Project) (query : String)
    (analysis : QueryAnalysis) (limit : Nat) (startTime now : Int)
    (projectFilter : Option String) (timeFilter : Option (Int → Bool)) :
    SearchResult :=
  let expandedDirs := projects
  if query.length < 3 then
    { messages := [], totalResults := 0, searchQuery := query,
      executionTime := now - startTime }
  else
    let maxProjects := min expandedDirs.length (max 8 (jsCeilDiv limit 2))
    let targetDirs :=
      match projectFilter with
      | some pf =>
        if pf = "" then expandedDirs.take maxProjects
        else expandedDirs.filter (fun d => strIncludes d.dir pf)
      | none => expandedDirs.take maxProjects
    let candidates := gatherRelevantCandidates targetDirs query analysis timeFilter (limit * 2)
    let topRelevant := selectTopRelevantResults candidates query analysis limit now
    let qualityResults := topRelevant.filter (fun m =>
      (3/2 : ℚ) ≤ jsOr m.finalScore m.relevanceScore &&
      40 ≤ m.content.length &&
      !(isLowValueContent m.content))
    { messages := qualityResults, totalResults := candidates.length,
      searchQuery := query, executionTime := now - startTime }

/-- The inner try of `performOptimizedSearch` re-raises: a corpus
enumeration failure propagates out of it. -/
def performOptimizedSearchE (enumeration : Except String (List Project))
    (query : String) (analysis : QueryAnalysis) (limit : Nat)
    (startTime now : Int) (projectFilter : Option String)
    (timeFilter : Option (Int → Bool)) : Except String SearchResult :=
  match enumeration with
  | .error e => .error e
  | .ok projects =>
    .ok (performOptimizedSearch projects query analysis limit startTime now
      projectFilter timeFilter)

/-- `searchConversations` (formatter.ts): analyze the query, run the
optimized search, and convert any raised fault into an empty result tagged
with the query and the elapsed time. -/
def searchConversations (enumeration : Except String (List Project))
    (query : String) (projectFilter : Option String)
    (timeFilter : Option (Int → Bool)) (limit : Nat) (startTime now : Int) :
    SearchResult :=
  let queryAnalysis := analyzeQueryIntent query
  match performOptimizedSearchE enumeration query queryAnalysis limit startTime now
      projectFilter timeFilter with
  | .error _ =>
    { messages := [], totalResults := 0, searchQuery := query,
      executionTime := now - startTime }
  | .ok r => r

/-- The answer lookup of `findSimilarQueries`: locate the query record by
uuid and attach the first substantial assistant reply within the next four
records as a context insight. -/
def attachAnswer (messages : List CompactMessage) (q : CompactMessage) :
    CompactMessage :=
  match messages.findIdx? (fun m => m.uuid == q.uuid) with
  | some qi =>
    match ((messages.drop (qi + 1)).take 4).find?
        (fun m => m.msgType == "assistant" && 50 < m.content.length) with
    | some nextMsg =>
      let base := q.context.getD ⟨[], [], [], [], [], [], []⟩
      let newCtx := { base with claudeInsights := [String.mk (nextMsg.content.toList.take 400)] }
      { q with context := some newCtx }
    | none => q
  | none => q

/-- The per-file body of the `findSimilarQueries` scan: filter the decoded
file for quality user queries, keep those whose similarity to the target
exceeds 0.4 with the similarity stored as `relevanceScore` and the answer
attached, and stop once 4× the limit is gathered. -/
def similarFileStep (targetQuery : String) (limit : Nat) (projDir : String)
    (st : List CompactMessage × Bool) (file : List ClaudeMsg) :
    List CompactMessage × Bool :=
  let (acc, stopped) := st
  if stopped then st
  else
    let messages := parseFileModel projDir none none file
    let userQueries := messages.filter (fun m =>
      m.msgType == "user" && 15 < m.content.length && m.content.length < 800 &&
      !(isLowValueContent m.content))
    let acc2 := acc ++ userQueries.filterMap (fun q =>
      let similarity := calculateQuerySimilarity targetQuery q.content
      if (2/5 : ℚ) < similarity then
        some (attachAnswer messages { q with relevanceScore := similarity })
      else none)
    (acc2, limit * 4 ≤ acc2.length)

/-- The per-project body of the `findSimilarQueries` scan: at most 5 files
per project, with the same early-termination check after each project. -/
def similarProjectStep (targetQuery : String) (limit : Nat)
    (st : List CompactMessage × Bool) (proj : Project) :
    List CompactMessage × Bool :=
  let (_, stopped) := st
  if stopped then st
  else
    let limitedFiles := proj.files.take 5
    let st2 := limitedFiles.foldl (similarFileStep targetQuery limit proj.dir) st
    (st2.1, limit * 4 ≤ st2.1.length)

/-- `findSimilarQueries(targetQuery, limit)` (formatter.ts): scan up to
8 partitions and 5 files each for quality user queries whose similarity to
the target exceeds 0.4, attach answers, stop early at 4× the limit, then
quality-filter, sort by similarity, and truncate. -/
def findSimilarQueries (projects : List Project) (targetQuery : String)
    (limit : Nat) : List CompactMessage :=
  let limitedDirs := projects.take 8
  let allMessages :=
    (limitedDirs.foldl (similarProjectStep targetQuery limit) ([], false)).1
  (sortDescBy (fun m => m.relevanceScore)
    (allMessages.filter (fun m => !(isLowValueContent m.content)))).take limit

/-! ## Claim theorems C6 and C9 -/

/-- Counterexample to C6 as stated: the guard in `performOptimizedSearch`
tests the RAW query length, not the trimmed length.  The query `" ab"` has
trimmed length 2, yet with a one-record corpus the search returns one
message and a non-zero total count (the record scores 5 through the
exact-phrase bonus and passes every later gate). -/
theorem search_trimmed_short_query_counterexample :
    (jsTrim " ab").length < 3 ∧
    (performOptimizedSearch
      [⟨"proj", [[⟨"u1", 0, "assistant", MsgBody.str
        "please keep the ab label visible during review meetings because everyone relies on it daily",
        none, "s1", none⟩]]⟩]
      " ab" (analyzeQueryIntent " ab") 15 0 0 none none).messages ≠ [] ∧
    (performOptimizedSearch
      [⟨"proj", [[⟨"u1", 0, "assistant", MsgBody.str
        "please keep the ab label visible during review meetings because everyone relies on it daily",
        none, "s1", none⟩]]⟩]
      " ab" (analyzeQueryIntent " ab") 15 0 0 none none).totalResults = 1 :=
  ⟨by decide,
   by set_option maxHeartbeats 2000000 in with_unfolding_all decide,
   by set_option maxHeartbeats 2000000 in with_unfolding_all decide⟩

/-- Claim C6 (amended: the guard is on the raw, untrimmed query length):
for every corpus and every query shorter than 3 characters,
`performOptimizedSearch` returns the empty, well-formed result payload with
zero messages and zero total count, tagged with the query and elapsed
time. -/
theorem search_short_query_empty (projects : List Project) (query : String)
    (analysis : QueryAnalysis) (limit : Nat) (startTime now : Int)
    (pf : Option String) (tf : Option (Int → Bool)) (h : query.length < 3) :
    performOptimizedSearch projects query analysis limit startTime now pf tf =
      { messages := [], totalResults := 0, searchQuery := query,
        executionTime := now - startTime } := by
  unfold performOptimizedSearch
  rw [if_pos h]

/-- Witness for the amended C6 at the empty query and at `"ab"`. -/
theorem search_short_query_empty_witness :
    ("ab".length < 3 ∧
      performOptimizedSearch [] "ab" (analyzeQueryIntent "ab") 15 0 7 none none =
        { messages := [], totalResults := 0, searchQuery := "ab",
          executionTime := 7 }) ∧
    ("".length < 3 ∧
      performOptimizedSearch [] "" (analyzeQueryIntent "") 15 0 7 none none =
        { messages := [], totalResults := 0, searchQuery := "",
          executionTime := 7 }) :=
  ⟨⟨by decide, search_short_query_empty [] "ab" (analyzeQueryIntent "ab") 15 0 7
      none none (by decide)⟩,
   ⟨by decide, search_short_query_empty [] "" (analyzeQueryIntent "") 15 0 7
      none none (by decide)⟩⟩

/-- Claim C9: a corpus enumeration failure never surfaces to the caller of
`searchConversations`; the caller receives a structurally valid empty
result set tagged with the attempted query and the elapsed time, for every
fault and every argument combination. -/
theorem search_enumeration_fault_contained (e : String) (query : String)
    (pf : Option String) (tf : Option (Int → Bool)) (limit : Nat)
    (startTime now : Int) :
    searchConversations (Except.error e) query pf tf limit startTime now =
      { messages := [], totalResults := 0, searchQuery := query,
        executionTime := now - startTime } := rfl

/-! ## Sorting and membership lemmas (for C10) -/

theorem mem_insertDescBy (key : α → ℚ) (a x : α) :
    ∀ (l : List α), x ∈ insertDescBy key a l ↔ x = a ∨ x ∈ l := by
  intro l
  induction l with
  | nil => simp [insertDescBy]
  | cons b t ih =>
    simp only [insertDescBy]
    by_cases hc : key b ≤ key a
    · rw [if_pos hc]
      simp [List.mem_cons]
    · rw [if_neg hc]
      simp only [List.mem_cons, ih]
      tauto

theorem mem_sortDescBy (key : α → ℚ) (x : α) :
    ∀ (l : List α), x ∈ sortDescBy key l ↔ x ∈ l := by
  intro l
  induction l with
  | nil => simp [sortDescBy]
  | cons b t ih =>
    show x ∈ insertDescBy key b (sortDescBy key t) ↔ _
    rw [mem_insertDescBy, ih]
    simp [List.mem_cons]

theorem sorted_insertDescBy (key : α → ℚ) (a : α) (l : List α)
    (h : l.Pairwise (fun x y => key y ≤ key x)) :
    (insertDescBy key a l).Pairwise (fun x y => key y ≤ key x) := by
  induction l with
  | nil => simp [insertDescBy]
  | cons b t ih =>
    rcases List.pairwise_cons.mp h with ⟨hb, ht⟩
    simp only [insertDescBy]
    by_cases hc : key b ≤ key a
    · rw [if_pos hc]
      refine List.pairwise_cons.mpr ⟨?_, h⟩
      intro y hy
      rcases List.mem_cons.mp hy with rfl | hy2
      · exact hc
      · exact le_trans (hb y hy2) hc
    · rw [if_neg hc]
      refine List.pairwise_cons.mpr ⟨?_, ih ht⟩
      intro y hy
      rcases (mem_insertDescBy key a y t).mp hy with rfl | hy2
      · exact le_of_lt (lt_of_not_le hc)
      · exact hb y hy2

theorem sorted_sortDescBy (key : α → ℚ) :
    ∀ (l : List α), (sortDescBy key l).Pairwise (fun x y => key y ≤ key x) := by
  intro l
  induction l with
  | nil => exact List.Pairwise.nil
  | cons b t ih => exact sorted_insertDescBy key b _ ih

theorem attachAnswer_fields (messages : List CompactMessage) (q : CompactMessage) :
    (attachAnswer messages q).msgType = q.msgType ∧
    (attachAnswer messages q).content = q.content ∧
    (attachAnswer messages q).relevanceScore = q.relevanceScore := by
  unfold attachAnswer
  repeat' split
  all_goals exact ⟨rfl, rfl, rfl⟩

/-- The postcondition of C10 for one returned record. -/
def SimilarGood (targetQuery : String) (m : CompactMessage) : Prop :=
  m.msgType = "user" ∧ 15 < m.content.length ∧ m.content.length < 800 ∧
  m.relevanceScore = calculateQuerySimilarity targetQuery m.content ∧
  (2/5 : ℚ) < calculateQuerySimilarity targetQuery m.content

theorem similarFileStep_good (targetQuery : String) (limit : Nat)
    (projDir : String) (st : List CompactMessage × Bool) (file : List ClaudeMsg)
    (hst : ∀ m ∈ st.1, SimilarGood targetQuery m) :
    ∀ m ∈ (similarFileStep targetQuery limit projDir st file).1,
      SimilarGood targetQuery m := by
  obtain ⟨acc, stopped⟩ := st
  intro m hm
  simp only [similarFileStep] at hm
  by_cases hs : stopped
  · rw [if_pos hs] at hm
    exact hst m hm
  · rw [if_neg hs] at hm
    simp only [] at hm
    rcases List.mem_append.mp hm with h1 | h1
    · exact hst m h1
    · rcases List.mem_filterMap.mp h1 with ⟨q, hq, hq2⟩
      rcases List.mem_filter.mp hq with ⟨_, hqprop⟩
      simp only [Bool.and_eq_true, beq_iff_eq, decide_eq_true_eq,
        Bool.not_eq_true'] at hqprop
      by_cases hsim : (2/5 : ℚ) < calculateQuerySimilarity targetQuery q.content
      · rw [if_pos hsim] at hq2
        obtain ⟨hty, hcont, hrel⟩ :=
          attachAnswer_fields (parseFileModel projDir none none file)
            { q with relevanceScore := calculateQuerySimilarity targetQuery q.content }
        rcases Option.some.inj hq2 with rfl
        refine ⟨by rw [hty]; exact hqprop.1.1.1, ?_, ?_, ?_, ?_⟩
        · rw [hcont]; exact hqprop.1.1.2
        · rw [hcont]; exact hqprop.1.2
        · rw [hrel, hcont]
        · rw [hcont]; exact hsim
      · rw [if_neg hsim] at hq2
        exact absurd hq2 (by simp)

theorem similarProjectStep_good (targetQuery : String) (limit : Nat)
    (st : List CompactMessage × Bool) (proj : Project)
    (hst : ∀ m ∈ st.1, SimilarGood targetQuery m) :
    ∀ m ∈ (similarProjectStep targetQuery limit st proj).1,
      SimilarGood targetQuery m := by
  obtain ⟨acc, stopped⟩ := st
  simp only [similarProjectStep]
  by_cases hs : stopped
  · rw [if_pos hs]
    exact hst
  · rw [if_neg hs]
    simp only []
    have hfold : ∀ (files : List (List ClaudeMsg)) (st0 : List CompactMessage × Bool),
        (∀ m ∈ st0.1, SimilarGood targetQuery m) →
        ∀ m ∈ (files.foldl (similarFileStep targetQuery limit proj.dir) st0).1,
          SimilarGood targetQuery m := by
      intro files
      induction files with
      | nil => intro st0 h0; exact h0
      | cons f rest ih =>
        intro st0 h0
        exact ih _ (similarFileStep_good targetQuery limit proj.dir st0 f h0)
    exact hfold (proj.files.take 5) (acc, stopped) hst

/-- Claim C10: every record returned by `findSimilarQueries` is a user-turn
record with content length strictly between 15 and 800 whose stored
relevance score is exactly its similarity to the target query, strictly
above 0.4; the list is sorted by that similarity in non-increasing order
and is no longer than the requested limit. -/
theorem findSimilarQueries_post (projects : List Project) (targetQuery : String)
    (limit : Nat) :
    (∀ m ∈ findSimilarQueries projects targetQuery limit,
      m.msgType = "user" ∧ 15 < m.content.length ∧ m.content.length < 800 ∧
      m.relevanceScore = calculateQuerySimilarity targetQuery m.content ∧
      (2/5 : ℚ) < calculateQuerySimilarity targetQuery m.content) ∧
    (findSimilarQueries projects targetQuery limit).Pairwise
      (fun a b => b.relevanceScore ≤ a.relevanceScore) ∧
    (findSimilarQueries projects targetQuery limit).length ≤ limit := by
  have hgather : ∀ m ∈ ((projects.take 8).foldl
      (similarProjectStep targetQuery limit) ([], false)).1,
      SimilarGood targetQuery m := by
    have hfold : ∀ (ps : List Project) (st0 : List CompactMessage × Bool),
        (∀ m ∈ st0.1, SimilarGood targetQuery m) →
        ∀ m ∈ (ps.foldl (similarProjectStep targetQuery limit) st0).1,
          SimilarGood targetQuery m := by
      intro ps
      induction ps with
      | nil => intro st0 h0; exact h0
      | cons p rest ih =>
        intro st0 h0
        exact ih _ (similarProjectStep_good targetQuery limit st0 p h0)
    exact hfold (projects.take 8) ([], false) (by simp)
  refine ⟨?_, ?_, ?_⟩
  · intro m hm
    unfold findSimilarQueries at hm
    have hm2 := (List.take_sublist _ _).subset hm
    rw [mem_sortDescBy] at hm2
    exact hgather m (List.mem_filter.mp hm2).1
  · unfold findSimilarQueries
    exact List.Pairwise.sublist (List.take_sublist _ _)
      (sorted_sortDescBy (fun (m : CompactMessage) => m.relevanceScore) _)
  · unfold findSimilarQueries
    exact List.length_take_le _ _

end Historian
